import Mathlib

/-!
Verification of the segment-manager core and TLS certificate resolver of the
qdrant repository snapshot, against its natural-language specification.

The Rust sources embedded here are:
- `lib/collection/src/segment_manager/simple_segment_searcher.rs`
- `lib/collection/src/segment_manager/simple_segment_updater.rs`
- `src/actix/certificate_helpers.rs`

Code of the repository that these files call but that is not part of the
snapshot (the `SegmentHolder` fan-out primitives `apply_points`,
`apply_segments`, `read_points`, `random_segment`, the `Segment` entry-point
contract, and `peek_top_scores_iterable`) is modelled from the specification;
every such definition carries a doc comment starting `Modelled from the spec:`.

Modelling conventions:
- machine integers (`SeqNumberType`, `PointIdType`) become `Nat`;
- `f32` scores and vector elements become `Int` (only their ordering matters
  to the properties verified here);
- iteration order of `HashMap`/holder iteration, unspecified in the spec, is
  modelled as list order, making every function deterministic;
- a Rust `panic!`/`unwrap` failure is modelled as `Option.none`;
- fallible calls return `Except String`.
-/

/-! ## Basic data model (segment/types.rs, operations/types.rs) -/

abbrev PointIdType := Nat

abbrev SeqNumberType := Nat

abbrev VectorType := List Int

/-- ScoredPoint as produced by a segment search: point id plus score. -/
structure ScoredPoint where
  idx : PointIdType
  score : Int
deriving DecidableEq, Repr

/-- Distance metric selector. Dot and Cosine are similarity metrics (higher
score is better), Euclid is a distance metric (lower is better). -/
inductive Distance where
  | Dot
  | Cosine
  | Euclid
deriving DecidableEq, Repr

/-- Payload of a point: map from payload key to an (opaque) payload value,
modelled as an association list in insertion order. -/
abbrev PayloadMap := List (String × String)

/-- Record: materialized point view `(id, payload?, vector?)`. -/
structure Record where
  id : PointIdType
  payload : Option PayloadMap
  vector : Option VectorType
deriving DecidableEq, Repr

/-! ## Association-list helpers (stand-ins for Rust HashMap state) -/

/-- Lookup of the first binding of a key in an association list. -/
def alookup {κ : Type} [DecidableEq κ] {α : Type} (k : κ) : List (κ × α) → Option α
  | [] => none
  | (k', v) :: rest => if k = k' then some v else alookup k rest

/-- Insert-or-replace of a key binding in an association list: replaces the
first binding in place, appends when the key is absent (HashMap insert). -/
def aset {κ : Type} [DecidableEq κ] {α : Type} (k : κ) (v : α) : List (κ × α) → List (κ × α)
  | [] => [(k, v)]
  | (k', v') :: rest => if k = k' then (k, v) :: rest else (k', v') :: aset k v rest

/-- Insertion into a set represented as a duplicate-free list (HashSet insert). -/
def insertSet (id : PointIdType) (s : List PointIdType) : List PointIdType :=
  if id ∈ s then s else id :: s

/-- Union of two id sets represented as lists. -/
def unionSet (a b : List PointIdType) : List PointIdType :=
  a.foldl (fun acc id => insertSet id acc) b

/-! ## Searcher-side segment views

The searcher only consumes segments through read primitives. A `SegmentView`
packages those primitives abstractly: `searchFn` is the per-segment
`Segment::search` (external contract), `payloadFn` / `vectorFn` the fallible
read accessors, `lockOk` the outcome of acquiring the segment's read lock. -/

structure SegmentView where
  lockOk : Bool
  version : SeqNumberType
  contains : PointIdType → Bool
  searchFn : VectorType → Nat → List ScoredPoint
  payloadFn : PointIdType → Except String PayloadMap
  vectorFn : PointIdType → Except String VectorType

/-- SimpleSegmentSearcher::search_in_segment: locks the segment for reading and
runs the segment search; a lock failure is mapped to the fixed error string. -/
def search_in_segment (s : SegmentView) (vector : VectorType) (top : Nat) :
    Except String (List ScoredPoint) :=
  if s.lockOk then .ok (s.searchFn vector top) else .error "Unable to unlock segment"

/-- Modelled from the spec: `futures::future::try_join_all` — joins the
per-segment tasks, short-circuiting on the first failing task (§4.2 step 2). -/
def tryJoinAll {α : Type} : List (Except String α) → Except String (List α)
  | [] => .ok []
  | x :: xs =>
    match x with
    | .error e => .error e
    | .ok v =>
      match tryJoinAll xs with
      | .error e => .error e
      | .ok vs => .ok (v :: vs)

/-- The stateful dedup filter of SimpleSegmentSearcher::search: walk the
concatenated results, keep an element only when its point id has not been seen
before (`seen_idx` HashSet), recording every id seen. -/
def dedupFirst (seen : List PointIdType) : List ScoredPoint → List ScoredPoint
  | [] => []
  | p :: rest =>
    if p.idx ∈ seen then dedupFirst (p.idx :: seen) rest
    else p :: dedupFirst (p.idx :: seen) rest

/-- Ordering used by top-score selection: `scoreBetter d a b` holds when `a`
is at least as good as `b` under distance `d` (higher score for similarity
metrics, lower score for the Euclid distance metric). -/
def scoreBetter (d : Distance) (a b : ScoredPoint) : Prop :=
  match d with
  | .Euclid => a.score ≤ b.score
  | _ => b.score ≤ a.score

instance (d : Distance) (a b : ScoredPoint) : Decidable (scoreBetter d a b) := by
  unfold scoreBetter
  cases d <;> exact inferInstance

/-- Modelled from the spec: `segment::spaces::tools::peek_top_scores_iterable`
(not in the snapshot) — reduces a stream to the `top` best entries under the
configured distance's ordering (§4.2 step 4, §9 top-k reduction). Modelled as
sorting by the ordering and taking the prefix; only the selected *set* is
specified, order of the output is not. -/
def peek_top_scores_iterable (xs : List ScoredPoint) (top : Nat) (d : Distance) :
    List ScoredPoint :=
  (xs.insertionSort (scoreBetter d)).take top

/-- SimpleSegmentSearcher::search: fans a search out to every segment, joins,
deduplicates by first occurrence of each point id, and reduces to global
top-`top`. The `.unwrap()` panic of the source on a failed join is modelled as
`none`. Filter and params are folded into `searchFn`. -/
def SimpleSegmentSearcher.search (segments : List SegmentView) (vector : VectorType)
    (top : Nat) (distance : Distance) : Option (List ScoredPoint) :=
  match tryJoinAll (segments.map (fun s => search_in_segment s vector top)) with
  | .error _ => none
  | .ok all_search_results =>
      some (peek_top_scores_iterable (dedupFirst [] all_search_results.flatten) top distance)

/-! ## SimpleSegmentSearcher::retrieve

The per-point accumulator pairs the `point_version` and `point_records`
HashMaps of the source (their key sets always coincide: the source inserts
into both together) into one association list `id ↦ (version, record)`. -/

abbrev RetrieveState := List (PointIdType × (SeqNumberType × Record))

/-- Record construction of the retrieve closure: the payload accessor is
consulted first, then the vector accessor, each aborting on error (`?`). -/
def buildRecord (with_payload with_vector : Bool) (id : PointIdType) (s : SegmentView) :
    Except String Record :=
  match (if with_payload then (s.payloadFn id).map some else .ok none) with
  | .error e => .error e
  | .ok payload =>
    match (if with_vector then (s.vectorFn id).map some else .ok none) with
    | .error e => .error e
    | .ok vector => .ok { id := id, payload := payload, vector := vector }

/-- The retrieve visitor: if the point is unseen or the visited segment has a
strictly greater version, replace the accumulated record wholesale. -/
def visitPoint (with_payload with_vector : Bool) (id : PointIdType) (s : SegmentView)
    (st : RetrieveState) : Except String RetrieveState :=
  match alookup id st with
  | none =>
    match buildRecord with_payload with_vector id s with
    | .error e => .error e
    | .ok r => .ok (aset id (s.version, r) st)
  | some (v, _) =>
    if v < s.version then
      match buildRecord with_payload with_vector id s with
      | .error e => .error e
      | .ok r => .ok (aset id (s.version, r) st)
    else .ok st

/-- Modelled from the spec: the inner loop of `SegmentHolder::read_points`
(§4.1) for one id — visit every segment that contains the id, in holder order;
a visitor error aborts immediately, keeping the state accumulated so far. -/
def scanSegments (with_payload with_vector : Bool) (id : PointIdType)
    (st : RetrieveState) : List SegmentView → Option String × RetrieveState
  | [] => (none, st)
  | s :: rest =>
    if s.contains id then
      match visitPoint with_payload with_vector id s st with
      | .ok st' => scanSegments with_payload with_vector id st' rest
      | .error e => (some e, st)
    else scanSegments with_payload with_vector id st rest

/-- Modelled from the spec: `SegmentHolder::read_points` (§4.1) specialised to
the retrieve visitor — for each id in input order, visit every containing
segment; an error aborts the whole scan (§7), keeping accumulated state. -/
def scanPoints (with_payload with_vector : Bool) (points : List PointIdType)
    (holder : List SegmentView) (st : RetrieveState) : Option String × RetrieveState :=
  match points with
  | [] => (none, st)
  | id :: rest =>
    match scanSegments with_payload with_vector id st holder with
    | (none, st') => scanPoints with_payload with_vector rest holder st'
    | (some e, st') => (some e, st')

/-- SimpleSegmentSearcher::retrieve: runs `read_points` with the visitor above
and returns the accumulated records. The source discards the `read_points`
result (`;`), so an error from a segment call is dropped and whatever records
were accumulated are returned. -/
def SimpleSegmentSearcher.retrieve (points : List PointIdType)
    (with_payload with_vector : Bool) (holder : List SegmentView) : List Record :=
  ((scanPoints with_payload with_vector points holder []).2).map (fun e => e.2.2)

/-- `FirstMaxFrom wp wv id segs v rec`: `rec` was built (with the requested
payload/vector flags) from the first segment of `segs` achieving the maximal
version `v` among the segments containing `id` — every earlier containing
segment is strictly below `v`, and no containing segment exceeds `v`. -/
abbrev FirstMaxFrom (wp wv : Bool) (id : PointIdType) (segs : List SegmentView)
    (v : SeqNumberType) (rec : Record) : Prop :=
  ∃ pre s suf, segs = pre ++ s :: suf ∧ s.contains id = true ∧ s.version = v ∧
    buildRecord wp wv id s = .ok rec ∧
    (∀ s' ∈ pre, s'.contains id = true → s'.version < v) ∧
    (∀ s' ∈ segs, s'.contains id = true → s'.version ≤ v)

/-! ## Updater-side concrete segment model

The updater mutates segments through the external `Segment` entry-point
contract (§3/§6), which is not part of the snapshot; it is modelled here as a
concrete record of per-point data. Per spec §3 a mutating call with
`op <= version()` is a no-op and a segment records the largest applied `op` as
its `version()`; per §4.1 the holder fan-out skips a segment whose
`version() >= op` outright. Following the spec's scenarios (§8, scenarios 4
and 5), the guard is evaluated once per segment against the version the
segment had at entry to the collection-level operation, so that all points of
one operation fall under a single guard decision; the raw per-point mutators
below therefore apply unconditionally and record `op` as the new version. -/

structure SegPoint where
  vector : VectorType
  payload : PayloadMap
deriving DecidableEq, Repr

structure Segment where
  version : SeqNumberType
  data : List (PointIdType × SegPoint)
deriving DecidableEq, Repr

/-- Modelled from the spec: `Segment::has_point` — whether the segment holds
the point. -/
def Segment.has_point (s : Segment) (id : PointIdType) : Bool :=
  (alookup id s.data).isSome

/-- Vector of a point held by the segment, if any. -/
def Segment.getVec (s : Segment) (id : PointIdType) : Option VectorType :=
  (alookup id s.data).map SegPoint.vector

/-- Payload of a point held by the segment, if any. -/
def Segment.getPayload (s : Segment) (id : PointIdType) : Option PayloadMap :=
  (alookup id s.data).map SegPoint.payload

/-- Modelled from the spec: `Segment::upsert_point` body — overwrite the
point's vector (inserting the point when absent, with empty payload) and
record `op` as the applied version. -/
def Segment.upsert_point_raw (op : SeqNumberType) (id : PointIdType) (vec : VectorType)
    (s : Segment) : Segment :=
  { version := op,
    data := aset id { vector := vec,
                      payload := ((alookup id s.data).map SegPoint.payload).getD [] } s.data }

/-- Modelled from the spec: `Segment::delete_point` body — drop the point and
record `op` as the applied version. -/
def Segment.delete_point_raw (op : SeqNumberType) (id : PointIdType) (s : Segment) : Segment :=
  { version := op, data := s.data.filter (fun p => decide (p.1 ≠ id)) }

/-- Shared shape of the per-point payload mutators: transform the point's
stored data in place (no effect when the point is absent) and record `op`. -/
def Segment.modifyPoint (op : SeqNumberType) (id : PointIdType) (f : SegPoint → SegPoint)
    (s : Segment) : Segment :=
  { version := op,
    data := match alookup id s.data with
            | some p => aset id (f p) s.data
            | none => s.data }

/-- Modelled from the spec: `Segment::set_payload` body — insert-or-replace
one payload key of the point. -/
def Segment.set_payload_raw (op : SeqNumberType) (id : PointIdType) (key : String)
    (value : String) (s : Segment) : Segment :=
  s.modifyPoint op id (fun p => { p with payload := aset key value p.payload })

/-- Modelled from the spec: `Segment::delete_payload` body — drop one payload
key of the point. -/
def Segment.delete_payload_raw (op : SeqNumberType) (id : PointIdType) (key : String)
    (s : Segment) : Segment :=
  s.modifyPoint op id (fun p => { p with payload := p.payload.filter (fun kv => decide (kv.1 ≠ key)) })

/-- Modelled from the spec: `Segment::clear_payload` body — drop the whole
payload of the point. -/
def Segment.clear_payload_raw (op : SeqNumberType) (id : PointIdType) (s : Segment) : Segment :=
  s.modifyPoint op id (fun p => { p with payload := [] })

/-- Modelled from the spec: `Segment::wipe_payload` body — drop the payloads
of all points of the segment and record `op`. -/
def Segment.wipe_payload_raw (op : SeqNumberType) (s : Segment) : Segment :=
  { version := op, data := s.data.map (fun p => (p.1, { p.2 with payload := [] })) }

/-! ## SegmentHolder fan-out primitives (modelled) -/

/-- Per-segment inner loop of `apply_points`: visit the ids in input order,
invoke the mutator on each id the segment currently holds, counting the
invocations that report `true` and recording each invoked id into the shared
touched set (the `updated_points.insert(id)` of the source closures). -/
def applyIdsToSegment (f : PointIdType → Segment → Bool × Segment) :
    List PointIdType → Segment → List PointIdType → Nat × Segment × List PointIdType
  | [], seg, touched => (0, seg, touched)
  | id :: rest, seg, touched =>
    if seg.has_point id then
      let r := f id seg
      let restR := applyIdsToSegment f rest r.2 (insertSet id touched)
      (restR.1 + (if r.1 then 1 else 0), restR.2)
    else applyIdsToSegment f rest seg touched

/-- Modelled from the spec: `SegmentHolder::apply_points` (§4.1) — for every
segment (in holder order) whose `version()` at entry is below `op`, mutate
each id the segment contains; a segment with `version() >= op` is skipped
entirely. Returns the count of mutations reporting `true`, the new holder, and
the set of ids actually touched. -/
def SegmentHolder.apply_points (op : SeqNumberType) (ids : List PointIdType)
    (f : PointIdType → Segment → Bool × Segment) :
    List Segment → Nat × List Segment × List PointIdType
  | [] => (0, [], [])
  | seg :: rest =>
    let first := if seg.version < op then applyIdsToSegment f ids seg [] else (0, seg, [])
    let restR := SegmentHolder.apply_points op ids f rest
    (first.1 + restR.1, first.2.1 :: restR.2.1, unionSet first.2.2 restR.2.2)

/-- Modelled from the spec: `SegmentHolder::apply_segments` (§4.1) — like
`apply_points` but invoked once per non-skipped segment, no id filter. -/
def SegmentHolder.apply_segments (op : SeqNumberType) (f : Segment → Bool × Segment) :
    List Segment → Nat × List Segment
  | [] => (0, [])
  | seg :: rest =>
    let first := if seg.version < op then f seg else (false, seg)
    let restR := SegmentHolder.apply_segments op f rest
    ((if first.1 then 1 else 0) + restR.1, first.2 :: restR.2)

/-- Modelled from the spec: `SegmentHolder::random_segment` (§4.1) — returns
some segment of the holder, `none` when the holder is empty. Selection is
unspecified; the model deterministically picks the first segment. -/
def SegmentHolder.random_segment (holder : List Segment) : Option Segment :=
  holder.head?

/-! ## SimpleSegmentUpdater -/

inductive UpdateError where
  | NotFound (missed_point_id : PointIdType)
  | ServiceError (error : String)
deriving DecidableEq, Repr

/-- SimpleSegmentUpdater::check_unprocessed_points: first id of the input list
missing from the processed set yields `NotFound`; otherwise the size of the
processed set. -/
def SimpleSegmentUpdater.check_unprocessed_points (points : List PointIdType)
    (processed : List PointIdType) : Except UpdateError Nat :=
  match (points.filter (fun p => decide (p ∉ processed))).head? with
  | none => .ok processed.length
  | some missed_point => .error (.NotFound missed_point)

/-- The `upsert_point` closure body used by upsert_points inside
`apply_points`: look the vector up in the points map and overwrite. -/
def upsertMutator (op : SeqNumberType) (points_map : List (PointIdType × VectorType))
    (id : PointIdType) (seg : Segment) : Bool × Segment :=
  (true, seg.upsert_point_raw op id ((alookup id points_map).getD []))

/-- The residual-insert loop of upsert_points: guarded `upsert_point` calls on
the randomly selected segment for every id touched by no segment, the guard
evaluated against the segment's version at entry (no-op when `op` does not
exceed it); the per-call results are discarded. -/
def residualUpsert (op : SeqNumberType) (resid : List PointIdType)
    (points_map : List (PointIdType × VectorType)) (seg : Segment) : Segment :=
  if seg.version < op then
    resid.foldl (fun s id => s.upsert_point_raw op id ((alookup id points_map).getD [])) seg
  else seg

/-- SimpleSegmentUpdater::upsert_points: update the point in every segment
already holding it via `apply_points`, then insert the ids touched by no
segment into the segment returned by `random_segment` (the holder head in this
model); fail with `ServiceError` when no segment exists. The returned count is
the `apply_points` count. The holder state is returned alongside the result
(mutations survive an error return). -/
def SimpleSegmentUpdater.upsert_points (op : SeqNumberType) (ids : List PointIdType)
    (vectors : List VectorType) (holder : List Segment) :
    Except UpdateError Nat × List Segment :=
  match (SegmentHolder.apply_points op ids (upsertMutator op (ids.zip vectors)) holder).2.1 with
  | [] => (.error (.ServiceError "No segments exists, expected at least one"), [])
  | seg :: rest =>
    (.ok (SegmentHolder.apply_points op ids (upsertMutator op (ids.zip vectors)) holder).1,
      residualUpsert op
        (ids.filter (fun x => decide (x ∉
          (SegmentHolder.apply_points op ids (upsertMutator op (ids.zip vectors)) holder).2.2)))
        (ids.zip vectors) seg :: rest)

/-- SimpleSegmentUpdater::delete_points: delete the ids from every segment
holding them; returns the number of deletions performed. -/
def SimpleSegmentUpdater.delete_points (op : SeqNumberType) (ids : List PointIdType)
    (holder : List Segment) : Except UpdateError Nat × List Segment :=
  let a := SegmentHolder.apply_points op ids
    (fun id seg => (true, seg.delete_point_raw op id)) holder
  (.ok a.1, a.2.1)

/-- The set_payload closure body: apply every key/value pair of the payload
map to the point, conjoining the per-key results. -/
def setPayloadMutator (op : SeqNumberType) (payload : PayloadMap)
    (id : PointIdType) (seg : Segment) : Bool × Segment :=
  payload.foldl (fun acc kv => (acc.1 && true, acc.2.set_payload_raw op id kv.1 kv.2))
    (true, seg)

/-- SimpleSegmentUpdater::set_payload: apply the payload map to every segment
holding each id, then fail with `NotFound` when some id was touched by no
segment; the mutations already applied are kept either way. -/
def SimpleSegmentUpdater.set_payload (op : SeqNumberType) (payload : PayloadMap)
    (points : List PointIdType) (holder : List Segment) :
    Except UpdateError Nat × List Segment :=
  match SimpleSegmentUpdater.check_unprocessed_points points
      (SegmentHolder.apply_points op points (setPayloadMutator op payload) holder).2.2 with
  | .ok _ =>
    (.ok (SegmentHolder.apply_points op points (setPayloadMutator op payload) holder).1,
      (SegmentHolder.apply_points op points (setPayloadMutator op payload) holder).2.1)
  | .error e =>
    (.error e, (SegmentHolder.apply_points op points (setPayloadMutator op payload) holder).2.1)

/-- The delete_payload closure body: drop every key of the key list from the
point, conjoining the per-key results. -/
def deletePayloadMutator (op : SeqNumberType) (keys : List String)
    (id : PointIdType) (seg : Segment) : Bool × Segment :=
  keys.foldl (fun acc key => (acc.1 && true, acc.2.delete_payload_raw op id key))
    (true, seg)

/-- SimpleSegmentUpdater::delete_payload: symmetric with set_payload. -/
def SimpleSegmentUpdater.delete_payload (op : SeqNumberType) (points : List PointIdType)
    (keys : List String) (holder : List Segment) :
    Except UpdateError Nat × List Segment :=
  match SimpleSegmentUpdater.check_unprocessed_points points
      (SegmentHolder.apply_points op points (deletePayloadMutator op keys) holder).2.2 with
  | .ok _ =>
    (.ok (SegmentHolder.apply_points op points (deletePayloadMutator op keys) holder).1,
      (SegmentHolder.apply_points op points (deletePayloadMutator op keys) holder).2.1)
  | .error e =>
    (.error e, (SegmentHolder.apply_points op points (deletePayloadMutator op keys) holder).2.1)

/-- SimpleSegmentUpdater::clear_payload: drop the whole payload of every id in
every segment holding it, with the same `NotFound` check. -/
def SimpleSegmentUpdater.clear_payload (op : SeqNumberType) (points : List PointIdType)
    (holder : List Segment) : Except UpdateError Nat × List Segment :=
  match SimpleSegmentUpdater.check_unprocessed_points points
      (SegmentHolder.apply_points op points
        (fun id seg => (true, seg.clear_payload_raw op id)) holder).2.2 with
  | .ok _ =>
    (.ok (SegmentHolder.apply_points op points
        (fun id seg => (true, seg.clear_payload_raw op id)) holder).1,
      (SegmentHolder.apply_points op points
        (fun id seg => (true, seg.clear_payload_raw op id)) holder).2.1)
  | .error e =>
    (.error e, (SegmentHolder.apply_points op points
        (fun id seg => (true, seg.clear_payload_raw op id)) holder).2.1)

/-- SimpleSegmentUpdater::wipe_payload: wipe the payloads of every segment. -/
def SimpleSegmentUpdater.wipe_payload (op : SeqNumberType) (holder : List Segment) :
    Except UpdateError Nat × List Segment :=
  let a := SegmentHolder.apply_segments op (fun seg => (true, seg.wipe_payload_raw op)) holder
  (.ok a.1, a.2)

/-! ## Operation types and dispatch -/

inductive PointOps where
  | UpsertPoints (ids : List PointIdType) (vectors : List VectorType)
  | DeletePoints (ids : List PointIdType)
deriving DecidableEq, Repr

inductive PayloadOps where
  | SetPayload (payload : PayloadMap) (points : List PointIdType)
  | DeletePayload (keys : List String) (points : List PointIdType)
  | ClearPayload (points : List PointIdType)
  | WipePayload
deriving DecidableEq, Repr

inductive CollectionUpdateOperations where
  | PointOperation (op : PointOps)
  | PayloadOperation (op : PayloadOps)
deriving DecidableEq, Repr

/-- SimpleSegmentUpdater::process_point_operation. -/
def SimpleSegmentUpdater.process_point_operation (op_num : SeqNumberType)
    (point_operation : PointOps) (holder : List Segment) :
    Except UpdateError Nat × List Segment :=
  match point_operation with
  | .UpsertPoints ids vectors => SimpleSegmentUpdater.upsert_points op_num ids vectors holder
  | .DeletePoints ids => SimpleSegmentUpdater.delete_points op_num ids holder

/-- SimpleSegmentUpdater::process_payload_operation. -/
def SimpleSegmentUpdater.process_payload_operation (op_num : SeqNumberType)
    (payload_operation : PayloadOps) (holder : List Segment) :
    Except UpdateError Nat × List Segment :=
  match payload_operation with
  | .SetPayload payload points => SimpleSegmentUpdater.set_payload op_num payload points holder
  | .DeletePayload keys points => SimpleSegmentUpdater.delete_payload op_num points keys holder
  | .ClearPayload points => SimpleSegmentUpdater.clear_payload op_num points holder
  | .WipePayload => SimpleSegmentUpdater.wipe_payload op_num holder

/-- SimpleSegmentUpdater::update: dispatch a collection update operation. -/
def SimpleSegmentUpdater.update (op_num : SeqNumberType)
    (operation : CollectionUpdateOperations) (holder : List Segment) :
    Except UpdateError Nat × List Segment :=
  match operation with
  | .PointOperation point_operation =>
    SimpleSegmentUpdater.process_point_operation op_num point_operation holder
  | .PayloadOperation payload_operation =>
    SimpleSegmentUpdater.process_payload_operation op_num payload_operation holder

/-! ## TLS rotating certificate resolver (src/actix/certificate_helpers.rs)

The resolver is stateful (a lock-guarded key) and consults the wall clock and
the filesystem. The embedding passes that environment explicitly: each
handshake receives the current instant `now : Nat` (seconds on the monotonic
clock) and the outcome `loadRes` that `load_certified_key` would produce from
disk at that moment. The certified key itself is opaque (`CertKey`). The
sequential model collapses the shared-lock fast path and the exclusive-lock
re-check: with a single caller the re-checked expiry equals the first check. -/

abbrev CertKey := String

structure CertifiedKeyWithAge where
  last_update : Nat
  key : CertKey
deriving DecidableEq, Repr

/-- CertifiedKeyWithAge::from — store the key, stamped with the present. -/
def CertifiedKeyWithAge.fromKey (now : Nat) (key : CertKey) : CertifiedKeyWithAge :=
  { last_update := now, key := key }

/-- CertifiedKeyWithAge::age — elapsed wall-clock since the last load. -/
def CertifiedKeyWithAge.age (k : CertifiedKeyWithAge) (now : Nat) : Nat :=
  now - k.last_update

/-- CertifiedKeyWithAge::is_expired — the age has reached the TTL. -/
def CertifiedKeyWithAge.is_expired (k : CertifiedKeyWithAge) (now : Nat) (ttl : Nat) : Bool :=
  decide (ttl ≤ k.age now)

structure RotatingCertificateResolver where
  ttl : Option Nat
  key : CertifiedKeyWithAge
deriving DecidableEq, Repr

/-- The TTL normalisation of actix_tls_server_config: a configured
`cert_ttl` of `None` or `Some 0` disables rotation (resolver TTL `none`). -/
def actixTlsServerConfigTtl (cert_ttl : Option Nat) : Option Nat :=
  match cert_ttl with
  | none => none
  | some 0 => none
  | some seconds => some seconds

/-- RotatingCertificateResolver::new — load the initial key (failure aborts
construction) and start with rotation state stamped `now`. -/
def RotatingCertificateResolver.new (ttl : Option Nat) (now : Nat)
    (loadRes : Except String CertKey) : Except String RotatingCertificateResolver :=
  loadRes.map (fun k => { ttl := ttl, key := CertifiedKeyWithAge.fromKey now k })

/-- CertifiedKeyWithAge::refresh — replace the stored key with a fresh load,
keeping the old state when loading fails. Returns the error alongside. -/
def CertifiedKeyWithAge.refresh (k : CertifiedKeyWithAge) (now : Nat)
    (loadRes : Except String CertKey) : Except String Unit × CertifiedKeyWithAge :=
  match loadRes with
  | .ok fresh => (.ok (), CertifiedKeyWithAge.fromKey now fresh)
  | .error e => (.error e, k)

/-- RotatingCertificateResolver::get_key_or_refresh — return the stored key
when no TTL is configured or the key is not yet expired; otherwise refresh
from disk, keeping (and returning) the previous key when the reload fails. -/
def RotatingCertificateResolver.get_key_or_refresh (r : RotatingCertificateResolver)
    (now : Nat) (loadRes : Except String CertKey) :
    CertKey × RotatingCertificateResolver :=
  match r.ttl with
  | none => (r.key.key, r)
  | some ttl =>
    if r.key.is_expired now ttl then
      let refreshed := (r.key.refresh now loadRes).2
      (refreshed.key, { r with key := refreshed })
    else (r.key.key, r)

/-- A sequence of handshakes: each entry of the trace supplies the instant of
the handshake and the disk contents at that instant; returns the served keys
in order plus the final resolver state. -/
def handshakes (r : RotatingCertificateResolver) :
    List (Nat × Except String CertKey) → List CertKey × RotatingCertificateResolver
  | [] => ([], r)
  | (now, loadRes) :: rest =>
    let step := r.get_key_or_refresh now loadRes
    let further := handshakes step.2 rest
    (step.1 :: further.1, further.2)

/-! ## Concrete instances used by witnesses and counterexamples -/

instance {ε α : Type} [DecidableEq ε] [DecidableEq α] : DecidableEq (Except ε α) := fun a b =>
  match a, b with
  | .ok x, .ok y =>
    if h : x = y then .isTrue (by rw [h]) else .isFalse (fun hh => by cases hh; exact h rfl)
  | .ok _, .error _ => .isFalse (fun hh => by cases hh)
  | .error _, .ok _ => .isFalse (fun hh => by cases hh)
  | .error x, .error y =>
    if h : x = y then .isTrue (by rw [h]) else .isFalse (fun hh => by cases hh; exact h rfl)

/-- Concrete stale segment used by witnesses: version 10, no points. -/
def staleSeg : Segment := { version := 10, data := [] }

/-- Concrete resolver without TTL, used by the C8 witness. -/
def resNoTtl : RotatingCertificateResolver :=
  { ttl := none, key := { last_update := 0, key := "C1" } }

/-- Concrete resolver with a 10-second TTL, used by the TLS witnesses. -/
def resTtl10 : RotatingCertificateResolver :=
  { ttl := some 10, key := { last_update := 0, key := "C1" } }

/-- Concrete fresh segment used by the C4 witness: version 1, holds point 1. -/
def segC4 : Segment := { version := 1, data := [(1, { vector := [], payload := [] })] }

/-- `touchedBySome op holder x`: some segment of the holder both is below the
operation's sequence number and holds the point — exactly the condition under
which the `apply_points` fan-out invokes the mutator for `x`. -/
def touchedBySome (op : SeqNumberType) (holder : List Segment) (x : PointIdType) : Prop :=
  ∃ seg ∈ holder, seg.version < op ∧ seg.has_point x = true

instance (op : SeqNumberType) (holder : List Segment) (x : PointIdType) :
    Decidable (touchedBySome op holder x) := by
  unfold touchedBySome
  exact List.decidableBEx _ holder

/-- The NotFound contract of a payload operation's result: an error is
reported precisely when some requested id was touched by no segment, and the
reported id is the first such id in input order. -/
def NotFoundSpec (op : SeqNumberType) (points : List PointIdType) (holder : List Segment)
    (res : Except UpdateError Nat) : Prop :=
  ((∃ m, res = .error (.NotFound m)) ↔ ∃ x ∈ points, ¬ touchedBySome op holder x) ∧
  (∀ m, res = .error (.NotFound m) →
    ∃ pre suf, points = pre ++ m :: suf ∧ ¬ touchedBySome op holder m ∧
      ∀ x ∈ pre, touchedBySome op holder x)

/-- Concrete fresh empty segment (the holder head / random segment) used by
the C3 witness. -/
def segB0 : Segment := { version := 0, data := [] }

/-- Concrete fresh segment holding point 7, used by the C3 witness. -/
def segA7 : Segment := { version := 0, data := [(7, { vector := [0], payload := [] })] }

/-- Concrete segment views used by the C1 and C2 witnesses: two locked
segments over points {3} and {3, 11} with differing versions. -/
def viewA : SegmentView where
  lockOk := true
  version := 1
  contains := fun i => i == 3
  searchFn := fun _ _ => [{ idx := 3, score := 4 }]
  payloadFn := fun _ => .ok [("k", "v")]
  vectorFn := fun _ => .ok [5]

def viewB : SegmentView where
  lockOk := true
  version := 2
  contains := fun i => i == 3 || i == 11
  searchFn := fun _ _ => [{ idx := 11, score := 4 }, { idx := 3, score := 9 }]
  payloadFn := fun _ => .ok [("b", "w")]
  vectorFn := fun _ => .ok [6]

/-- Concrete segment view whose payload accessor fails, used by the C6
counterexample and witness. -/
def vBad : SegmentView where
  lockOk := true
  version := 9
  contains := fun i => i == 2
  searchFn := fun _ _ => []
  payloadFn := fun _ => .error "boom"
  vectorFn := fun _ => .ok [0]

/-- Concrete segment view whose read lock is poisoned, used by the C6
witness. -/
def lockBad : SegmentView where
  lockOk := false
  version := 0
  contains := fun _ => false
  searchFn := fun _ _ => []
  payloadFn := fun _ => .ok []
  vectorFn := fun _ => .ok []

/-! ## Shared helper lemmas -/

theorem alookup_aset_self {κ : Type} [DecidableEq κ] {α : Type} (k : κ) (v : α)
    (m : List (κ × α)) : alookup k (aset k v m) = some v := by
  induction m with
  | nil => simp [aset, alookup]
  | cons hd tl ih =>
    by_cases h : k = hd.1
    · simp [aset, h, alookup]
    · simp [aset, h, alookup, ih]

theorem alookup_aset_ne {κ : Type} [DecidableEq κ] {α : Type} (k k' : κ) (v : α)
    (m : List (κ × α)) (h : k ≠ k') : alookup k (aset k' v m) = alookup k m := by
  induction m with
  | nil => simp [aset, alookup, h]
  | cons hd tl ih =>
    by_cases h2 : k' = hd.1
    · subst h2
      simp [aset, alookup, h]
    · by_cases h3 : k = hd.1 <;> simp [aset, h2, alookup, h3, ih]

theorem mem_insertSet (x id : PointIdType) (s : List PointIdType) :
    x ∈ insertSet id s ↔ x = id ∨ x ∈ s := by
  unfold insertSet
  by_cases h : id ∈ s
  · simp only [h, if_true]
    constructor
    · exact fun hx => Or.inr hx
    · rintro (rfl | hx)
      · exact h
      · exact hx
  · simp [h]

theorem mem_unionSet (x : PointIdType) (a b : List PointIdType) :
    x ∈ unionSet a b ↔ x ∈ a ∨ x ∈ b := by
  induction a generalizing b with
  | nil => simp [unionSet]
  | cons hd tl ih =>
    show x ∈ unionSet tl (insertSet hd b) ↔ _
    rw [ih, mem_insertSet]
    constructor
    · rintro (h | h | h)
      · exact Or.inl (List.mem_cons_of_mem _ h)
      · exact Or.inl (h ▸ List.mem_cons_self _ _)
      · exact Or.inr h
    · rintro (h | h)
      · rcases List.mem_cons.mp h with rfl | h
        · exact Or.inr (Or.inl rfl)
        · exact Or.inl h
      · exact Or.inr (Or.inr h)

theorem apply_points_length (op : SeqNumberType) (ids : List PointIdType)
    (f : PointIdType → Segment → Bool × Segment) (holder : List Segment) :
    (SegmentHolder.apply_points op ids f holder).2.1.length = holder.length := by
  induction holder with
  | nil => rfl
  | cons seg rest ih => simp [SegmentHolder.apply_points, ih]

theorem apply_points_get (op : SeqNumberType) (ids : List PointIdType)
    (f : PointIdType → Segment → Bool × Segment) (holder : List Segment) (i : Nat) :
    (SegmentHolder.apply_points op ids f holder).2.1.get? i =
      (holder.get? i).map (fun seg =>
        if seg.version < op then (applyIdsToSegment f ids seg []).2.1 else seg) := by
  induction holder generalizing i with
  | nil => rfl
  | cons seg rest ih =>
    cases i with
    | zero =>
      by_cases h : seg.version < op <;> simp [SegmentHolder.apply_points, h]
    | succ n => simpa [SegmentHolder.apply_points] using ih n


/-- C7: for every Upsert, when `random_segment()` returns no segment (the
holder is empty) the operation fails with the ServiceError, regardless of how
many ids were supplied; with at least one segment it never does. -/
theorem upsert_points_fails_without_segments (op : SeqNumberType) (ids : List PointIdType)
    (vectors : List VectorType) (holder : List Segment) :
    ((SimpleSegmentUpdater.upsert_points op ids vectors holder).1 =
        .error (.ServiceError "No segments exists, expected at least one") ↔
      SegmentHolder.random_segment holder = none) ∧
    (SegmentHolder.random_segment holder = none ↔ holder = []) := by
  cases holder with
  | nil =>
    refine ⟨⟨fun _ => rfl, fun _ => rfl⟩, by simp [SegmentHolder.random_segment]⟩
  | cons seg rest =>
    constructor
    · constructor
      · intro h
        rw [show (SimpleSegmentUpdater.upsert_points op ids vectors (seg :: rest)).1 =
            .ok (SegmentHolder.apply_points op ids
              (upsertMutator op (ids.zip vectors)) (seg :: rest)).1 from rfl] at h
        cases h
      · intro h
        simp [SegmentHolder.random_segment] at h
    · simp [SegmentHolder.random_segment]

/-- C10: for every Upsert on a non-empty holder the per-id results of the
residual inserts into the randomly selected segment are discarded: the
operation returns `Ok` carrying exactly the `apply_points` count, whatever the
residual `upsert_point` calls did. -/
theorem upsert_points_count_from_apply_step (op : SeqNumberType) (ids : List PointIdType)
    (vectors : List VectorType) (holder : List Segment) (hne : holder ≠ []) :
    (SimpleSegmentUpdater.upsert_points op ids vectors holder).1 =
      .ok (SegmentHolder.apply_points op ids (upsertMutator op (ids.zip vectors)) holder).1 := by
  cases holder with
  | nil => exact absurd rfl hne
  | cons seg rest => rfl

/-- Witness for C10 at an input where the single residual insert is absorbed
as a no-op (the only — hence randomly selected — segment is stale): the
operation still returns `Ok` with the `apply_points` count. -/
theorem upsert_points_count_from_apply_step_witness :
    (SimpleSegmentUpdater.upsert_points 5 [9] [[1]] [staleSeg]).1 =
      .ok (SegmentHolder.apply_points 5 [9] (upsertMutator 5 ([9].zip [[1]])) [staleSeg]).1 :=
  upsert_points_count_from_apply_step 5 [9] [[1]] [staleSeg] (by decide)

/-- C8: TTL `None` or `0` disables refresh (the resolver then serves the
initial key on every handshake forever); with a TTL configured, a handshake
before expiry returns the stored key and changes nothing, and a handshake at
or past expiry reloads from disk and serves the freshly loaded key. -/
theorem tls_ttl_semantics :
    (actixTlsServerConfigTtl none = none ∧ actixTlsServerConfigTtl (some 0) = none) ∧
    (∀ (r : RotatingCertificateResolver), r.ttl = none →
      ∀ trace, handshakes r trace = (trace.map (fun _ => r.key.key), r)) ∧
    (∀ (r : RotatingCertificateResolver) (ttl now : Nat) (loadRes : Except String CertKey),
      r.ttl = some ttl → r.key.age now < ttl →
      r.get_key_or_refresh now loadRes = (r.key.key, r)) ∧
    (∀ (r : RotatingCertificateResolver) (ttl now : Nat) (k : CertKey),
      r.ttl = some ttl → ttl ≤ r.key.age now →
      r.get_key_or_refresh now (.ok k) =
        (k, { r with key := { last_update := now, key := k } })) := by
  refine ⟨⟨rfl, rfl⟩, ?_, ?_, ?_⟩
  · intro r hr trace
    induction trace with
    | nil => simp [handshakes]
    | cons hd tl ih =>
      obtain ⟨now, load⟩ := hd
      simp [handshakes, RotatingCertificateResolver.get_key_or_refresh, hr, ih]
  · intro r ttl now load hr hlt
    simp [RotatingCertificateResolver.get_key_or_refresh, hr, CertifiedKeyWithAge.is_expired,
      Nat.not_le.mpr hlt]
  · intro r ttl now k hr hle
    simp [RotatingCertificateResolver.get_key_or_refresh, hr, CertifiedKeyWithAge.is_expired,
      hle, CertifiedKeyWithAge.refresh, CertifiedKeyWithAge.fromKey]


/-- Witness for C8: without TTL two handshakes (one past any expiry, one with
a broken disk) both serve the initial key; with TTL 10 a handshake at age 3
serves the stored key unchanged and one at age 10 serves the reloaded key. -/
theorem tls_ttl_semantics_witness :
    handshakes resNoTtl [(5, .ok "C2"), (100, .error "gone")] = (["C1", "C1"], resNoTtl) ∧
    resTtl10.get_key_or_refresh 3 (.ok "C2") = ("C1", resTtl10) ∧
    resTtl10.get_key_or_refresh 10 (.ok "C2") =
      ("C2", { resTtl10 with key := { last_update := 10, key := "C2" } }) := by
  refine ⟨?_, ?_, ?_⟩
  · simpa using tls_ttl_semantics.2.1 resNoTtl rfl [(5, .ok "C2"), (100, .error "gone")]
  · exact tls_ttl_semantics.2.2.1 resTtl10 10 3 (.ok "C2") rfl (by decide)
  · exact tls_ttl_semantics.2.2.2 resTtl10 10 10 "C2" rfl (by decide)

/-- C9: with an expired TTL, a failed reload keeps and returns the previously
stored key with the resolver state untouched (the error is only logged, which
is outside this model); in general every handshake serves either the stored
key or a freshly and successfully loaded one — never no key. -/
theorem tls_refresh_failure_keeps_previous_key :
    (∀ (r : RotatingCertificateResolver) (ttl now : Nat) (e : String),
      r.ttl = some ttl → ttl ≤ r.key.age now →
      r.get_key_or_refresh now (.error e) = (r.key.key, r)) ∧
    (∀ (r : RotatingCertificateResolver) (now : Nat) (loadRes : Except String CertKey),
      (r.get_key_or_refresh now loadRes).1 = r.key.key ∨
      ∃ k, loadRes = .ok k ∧ (r.get_key_or_refresh now loadRes).1 = k) := by
  constructor
  · intro r ttl now e hr hle
    simp [RotatingCertificateResolver.get_key_or_refresh, hr, CertifiedKeyWithAge.is_expired,
      hle, CertifiedKeyWithAge.refresh]
    rw [← hr]
  · intro r now loadRes
    unfold RotatingCertificateResolver.get_key_or_refresh
    cases hr : r.ttl with
    | none => exact Or.inl rfl
    | some ttl =>
      by_cases hexp : r.key.is_expired now ttl
      · cases loadRes with
        | ok k =>
          refine Or.inr ⟨k, rfl, ?_⟩
          simp [hexp, CertifiedKeyWithAge.refresh, CertifiedKeyWithAge.fromKey]
        | error e =>
          refine Or.inl ?_
          simp [hexp, CertifiedKeyWithAge.refresh]
      · simp [hexp]

/-- Witness for C9: at age 12 (expired TTL 10) with the certificate file
gone, the handshake still serves the previous key and keeps the state. -/
theorem tls_refresh_failure_keeps_previous_key_witness :
    resTtl10.get_key_or_refresh 12 (.error "gone") = ("C1", resTtl10) :=
  tls_refresh_failure_keeps_previous_key.1 resTtl10 10 12 "gone" rfl (by decide)

/-! ## Segment-level preservation lemmas -/

theorem has_point_modifyPoint (op : SeqNumberType) (id' : PointIdType) (f : SegPoint → SegPoint)
    (s : Segment) (id : PointIdType) :
    (s.modifyPoint op id' f).has_point id = s.has_point id := by
  unfold Segment.modifyPoint Segment.has_point
  cases h : alookup id' s.data with
  | none => rfl
  | some p =>
    by_cases hid : id = id'
    · subst hid
      simp [alookup_aset_self, h]
    · simp [alookup_aset_ne _ _ _ _ hid]

theorem has_point_set_payload_raw (op : SeqNumberType) (id' : PointIdType) (key value : String)
    (s : Segment) (id : PointIdType) :
    (s.set_payload_raw op id' key value).has_point id = s.has_point id :=
  has_point_modifyPoint op id' _ s id

theorem has_point_delete_payload_raw (op : SeqNumberType) (id' : PointIdType) (key : String)
    (s : Segment) (id : PointIdType) :
    (s.delete_payload_raw op id' key).has_point id = s.has_point id :=
  has_point_modifyPoint op id' _ s id

theorem has_point_clear_payload_raw (op : SeqNumberType) (id' : PointIdType)
    (s : Segment) (id : PointIdType) :
    (s.clear_payload_raw op id').has_point id = s.has_point id :=
  has_point_modifyPoint op id' _ s id

theorem has_point_setPayloadMutator (op : SeqNumberType) (payload : PayloadMap)
    (id' : PointIdType) (seg : Segment) (id : PointIdType) :
    ((setPayloadMutator op payload id' seg).2).has_point id = seg.has_point id := by
  unfold setPayloadMutator
  induction payload generalizing seg with
  | nil => rfl
  | cons kv tl ih =>
    have step : ∀ (b : Bool) (s : Segment),
        (List.foldl (fun acc kv => (acc.1 && true, acc.2.set_payload_raw op id' kv.1 kv.2))
          (b, s) (kv :: tl)) =
        (List.foldl (fun acc kv => (acc.1 && true, acc.2.set_payload_raw op id' kv.1 kv.2))
          (b && true, s.set_payload_raw op id' kv.1 kv.2) tl) := fun _ _ => rfl
    rw [step]
    rw [show ((true && true, seg.set_payload_raw op id' kv.1 kv.2) :
        Bool × Segment) = (true, seg.set_payload_raw op id' kv.1 kv.2) by simp]
    rw [ih]
    exact has_point_set_payload_raw op id' kv.1 kv.2 seg id

theorem has_point_deletePayloadMutator (op : SeqNumberType) (keys : List String)
    (id' : PointIdType) (seg : Segment) (id : PointIdType) :
    ((deletePayloadMutator op keys id' seg).2).has_point id = seg.has_point id := by
  unfold deletePayloadMutator
  induction keys generalizing seg with
  | nil => rfl
  | cons k tl ih =>
    have step : ∀ (b : Bool) (s : Segment),
        (List.foldl (fun acc key => (acc.1 && true, acc.2.delete_payload_raw op id' key))
          (b, s) (k :: tl)) =
        (List.foldl (fun acc key => (acc.1 && true, acc.2.delete_payload_raw op id' key))
          (b && true, s.delete_payload_raw op id' k) tl) := fun _ _ => rfl
    rw [step]
    rw [show ((true && true, seg.delete_payload_raw op id' k) :
        Bool × Segment) = (true, seg.delete_payload_raw op id' k) by simp]
    rw [ih]
    exact has_point_delete_payload_raw op id' k seg id

/-! ## Touched-set characterization of apply_points -/

theorem applyIds_touched (f : PointIdType → Segment → Bool × Segment)
    (hf : ∀ i s, s.has_point i = true → ∀ j, ((f i s).2).has_point j = s.has_point j)
    (ids : List PointIdType) :
    ∀ (seg : Segment) (t : List PointIdType) (x : PointIdType),
      x ∈ (applyIdsToSegment f ids seg t).2.2 ↔
        x ∈ t ∨ (x ∈ ids ∧ seg.has_point x = true) := by
  induction ids with
  | nil => intro seg t x; simp [applyIdsToSegment]
  | cons id rest ih =>
    intro seg t x
    by_cases h : seg.has_point id
    · rw [show applyIdsToSegment f (id :: rest) seg t =
          (let r := f id seg
           let restR := applyIdsToSegment f rest r.2 (insertSet id t)
           (restR.1 + (if r.1 then 1 else 0), restR.2)) by simp [applyIdsToSegment, h]]
      show x ∈ (applyIdsToSegment f rest (f id seg).2 (insertSet id t)).2.2 ↔ _
      rw [ih, mem_insertSet, hf id seg h]
      constructor
      · rintro ((rfl | hx) | ⟨hr, hp⟩)
        · exact Or.inr ⟨List.mem_cons_self _ _, h⟩
        · exact Or.inl hx
        · exact Or.inr ⟨List.mem_cons_of_mem _ hr, hp⟩
      · rintro (hx | ⟨hmem, hp⟩)
        · exact Or.inl (Or.inr hx)
        · rcases List.mem_cons.mp hmem with rfl | hr
          · exact Or.inl (Or.inl rfl)
          · exact Or.inr ⟨hr, hp⟩
    · rw [show applyIdsToSegment f (id :: rest) seg t =
          applyIdsToSegment f rest seg t by simp [applyIdsToSegment, h]]
      rw [ih]
      constructor
      · rintro (hx | ⟨hr, hp⟩)
        · exact Or.inl hx
        · exact Or.inr ⟨List.mem_cons_of_mem _ hr, hp⟩
      · rintro (hx | ⟨hmem, hp⟩)
        · exact Or.inl hx
        · rcases List.mem_cons.mp hmem with rfl | hr
          · exact absurd hp (by simpa using h)
          · exact Or.inr ⟨hr, hp⟩


theorem apply_points_touched (op : SeqNumberType) (ids : List PointIdType)
    (f : PointIdType → Segment → Bool × Segment)
    (hf : ∀ i s, s.has_point i = true → ∀ j, ((f i s).2).has_point j = s.has_point j)
    (holder : List Segment) (x : PointIdType) :
    x ∈ (SegmentHolder.apply_points op ids f holder).2.2 ↔
      x ∈ ids ∧ touchedBySome op holder x := by
  induction holder with
  | nil => simp [SegmentHolder.apply_points, touchedBySome]
  | cons seg rest ih =>
    show x ∈ unionSet _ _ ↔ _
    rw [mem_unionSet, ih]
    by_cases h : seg.version < op
    · simp only [h, if_true]
      rw [applyIds_touched f hf]
      unfold touchedBySome
      constructor
      · rintro ((h0 | ⟨hid, hp⟩) | ⟨hid, s, hs, hv, hp⟩)
        · simp at h0
        · exact ⟨hid, seg, List.mem_cons_self _ _, h, hp⟩
        · exact ⟨hid, s, List.mem_cons_of_mem _ hs, hv, hp⟩
      · rintro ⟨hid, s, hs, hv, hp⟩
        rcases List.mem_cons.mp hs with rfl | hs
        · exact Or.inl (Or.inr ⟨hid, hp⟩)
        · exact Or.inr ⟨hid, s, hs, hv, hp⟩
    · simp only [h, if_false]
      unfold touchedBySome
      constructor
      · rintro (h0 | ⟨hid, s, hs, hv, hp⟩)
        · simp at h0
        · exact ⟨hid, s, List.mem_cons_of_mem _ hs, hv, hp⟩
      · rintro ⟨hid, s, hs, hv, hp⟩
        rcases List.mem_cons.mp hs with rfl | hs
        · exact absurd hv h
        · exact Or.inr ⟨hid, s, hs, hv, hp⟩

/-! ## check_unprocessed_points characterization -/

theorem filter_head_none {α : Type} (p : α → Bool) (l : List α) :
    (l.filter p).head? = none ↔ ∀ x ∈ l, p x = false := by
  induction l with
  | nil => simp
  | cons hd tl ih =>
    by_cases h : p hd
    · simp [List.filter_cons, h]
    · simp only [List.filter_cons, h, if_false, Bool.false_eq_true, ih]
      constructor
      · intro hall x hx
        rcases List.mem_cons.mp hx with rfl | hx
        · simpa using h
        · exact hall x hx
      · intro hall x hx
        exact hall x (List.mem_cons_of_mem _ hx)

theorem filter_head_some {α : Type} (p : α → Bool) (l : List α) (m : α) :
    (l.filter p).head? = some m →
      ∃ pre suf, l = pre ++ m :: suf ∧ p m = true ∧ ∀ x ∈ pre, p x = false := by
  induction l with
  | nil => intro h; simp at h
  | cons hd tl ih =>
    intro h
    by_cases hp : p hd
    · rw [List.filter_cons_of_pos hp] at h
      simp only [List.head?_cons, Option.some.injEq] at h
      subst h
      exact ⟨[], tl, rfl, hp, by simp⟩
    · rw [List.filter_cons_of_neg hp] at h
      obtain ⟨pre, suf, heq, hm, hpre⟩ := ih h
      refine ⟨hd :: pre, suf, by simp [heq], hm, ?_⟩
      intro x hx
      rcases List.mem_cons.mp hx with rfl | hx
      · simpa using hp
      · exact hpre x hx

theorem check_unprocessed_error_iff (points processed : List PointIdType) :
    (∃ m, SimpleSegmentUpdater.check_unprocessed_points points processed =
        .error (.NotFound m)) ↔ ∃ x ∈ points, x ∉ processed := by
  unfold SimpleSegmentUpdater.check_unprocessed_points
  cases h : (points.filter (fun p => decide (p ∉ processed))).head? with
  | none =>
    rw [filter_head_none] at h
    simp only [Option.some.injEq]
    constructor
    · rintro ⟨m, hm⟩; cases hm
    · rintro ⟨x, hx, hnp⟩
      have := h x hx
      simp [hnp] at this
  | some m =>
    obtain ⟨pre, suf, heq, hm, _⟩ := filter_head_some _ _ _ h
    simp only [Except.error.injEq, UpdateError.NotFound.injEq]
    constructor
    · rintro ⟨m', rfl⟩
      exact ⟨m, by simp [heq], by simpa using hm⟩
    · rintro ⟨x, hx, hnp⟩
      exact ⟨m, rfl⟩

theorem check_unprocessed_error_first (points processed : List PointIdType)
    (m : PointIdType)
    (h : SimpleSegmentUpdater.check_unprocessed_points points processed =
      .error (.NotFound m)) :
    ∃ pre suf, points = pre ++ m :: suf ∧ m ∉ processed ∧ ∀ x ∈ pre, x ∈ processed := by
  unfold SimpleSegmentUpdater.check_unprocessed_points at h
  cases hh : (points.filter (fun p => decide (p ∉ processed))).head? with
  | none => rw [hh] at h; cases h
  | some m' =>
    rw [hh] at h
    simp only [Except.error.injEq, UpdateError.NotFound.injEq] at h
    subst h
    obtain ⟨pre, suf, heq, hm, hpre⟩ := filter_head_some _ _ _ hh
    refine ⟨pre, suf, heq, by simpa using hm, ?_⟩
    intro x hx
    have := hpre x hx
    simpa using this


theorem notfound_spec_of_touched (op : SeqNumberType) (points : List PointIdType)
    (holder : List Segment) (touched : List PointIdType) (cnt : Nat)
    (ht : ∀ x, x ∈ touched ↔ x ∈ points ∧ touchedBySome op holder x) :
    NotFoundSpec op points holder
      (match SimpleSegmentUpdater.check_unprocessed_points points touched with
       | .ok _ => .ok cnt
       | .error e => .error e) := by
  constructor
  · cases hc : SimpleSegmentUpdater.check_unprocessed_points points touched with
    | ok n =>
      simp only [hc]
      constructor
      · rintro ⟨m, hm⟩; cases hm
      · rintro ⟨x, hx, hnt⟩
        have : ∃ m, SimpleSegmentUpdater.check_unprocessed_points points touched =
            .error (.NotFound m) := by
          rw [check_unprocessed_error_iff]
          exact ⟨x, hx, fun hmem => hnt ((ht x).mp hmem).2⟩
        obtain ⟨m, hm⟩ := this
        rw [hc] at hm; cases hm
    | error e =>
      have hex : ∃ x ∈ points, x ∉ touched := by
        rw [← check_unprocessed_error_iff points touched]
        cases e with
        | NotFound m => exact ⟨m, hc⟩
        | ServiceError s =>
          exfalso
          unfold SimpleSegmentUpdater.check_unprocessed_points at hc
          cases hh : (points.filter (fun p => decide (p ∉ touched))).head? <;>
            rw [hh] at hc <;> cases hc
      obtain ⟨x, hx, hnt⟩ := hex
      simp only [hc]
      constructor
      · rintro ⟨m, hm⟩
        exact ⟨x, hx, fun htb => hnt ((ht x).mpr ⟨hx, htb⟩)⟩
      · intro _
        cases e with
        | NotFound m => exact ⟨m, rfl⟩
        | ServiceError s =>
          exfalso
          unfold SimpleSegmentUpdater.check_unprocessed_points at hc
          cases hh : (points.filter (fun p => decide (p ∉ touched))).head? <;>
            rw [hh] at hc <;> cases hc
  · intro m hm
    cases hc : SimpleSegmentUpdater.check_unprocessed_points points touched with
    | ok n => rw [hc] at hm; cases hm
    | error e =>
      rw [hc] at hm
      cases hm
      obtain ⟨pre, suf, heq, hmn, hpre⟩ := check_unprocessed_error_first _ _ _ hc
      refine ⟨pre, suf, heq, fun htb => hmn ((ht m).mpr ⟨by simp [heq], htb⟩), ?_⟩
      intro x hx
      exact ((ht x).mp (hpre x hx)).2

/-! ## Establish/preserve machinery for the apply_points fold -/

theorem applyIds_preserves (f : PointIdType → Segment → Bool × Segment) (P : Segment → Prop)
    (hstep : ∀ i s, P s → P ((f i s).2)) :
    ∀ (ids : List PointIdType) (seg : Segment) (t : List PointIdType),
      P seg → P ((applyIdsToSegment f ids seg t).2.1) := by
  intro ids
  induction ids with
  | nil => intro seg t h; exact h
  | cons id rest ih =>
    intro seg t h
    by_cases hp : seg.has_point id
    · rw [show applyIdsToSegment f (id :: rest) seg t =
          (let r := f id seg
           let restR := applyIdsToSegment f rest r.2 (insertSet id t)
           (restR.1 + (if r.1 then 1 else 0), restR.2)) by simp [applyIdsToSegment, hp]]
      exact ih ((f id seg).2) (insertSet id t) (hstep id seg h)
    · rw [show applyIdsToSegment f (id :: rest) seg t =
          applyIdsToSegment f rest seg t by simp [applyIdsToSegment, hp]]
      exact ih seg t h

theorem applyIds_establish (f : PointIdType → Segment → Bool × Segment) (P : Segment → Prop)
    (x : PointIdType)
    (hf : ∀ i s, s.has_point i = true → ∀ j, j ≠ i →
      ((f i s).2).has_point j = s.has_point j)
    (hstep : ∀ i s, P s → P ((f i s).2))
    (happ : ∀ s, s.has_point x = true → P ((f x s).2)) :
    ∀ (ids : List PointIdType) (seg : Segment) (t : List PointIdType),
      x ∈ ids → seg.has_point x = true → P ((applyIdsToSegment f ids seg t).2.1) := by
  intro ids
  induction ids with
  | nil => intro seg t hx; simp at hx
  | cons id rest ih =>
    intro seg t hx hpx
    by_cases hid : x = id
    · subst hid
      rw [show applyIdsToSegment f (x :: rest) seg t =
          (let r := f x seg
           let restR := applyIdsToSegment f rest r.2 (insertSet x t)
           (restR.1 + (if r.1 then 1 else 0), restR.2)) by simp [applyIdsToSegment, hpx]]
      exact applyIds_preserves f P hstep rest _ _ (happ seg hpx)
    · have hxr : x ∈ rest := by
        rcases List.mem_cons.mp hx with h | h
        · exact absurd h hid
        · exact h
      by_cases hp : seg.has_point id
      · rw [show applyIdsToSegment f (id :: rest) seg t =
            (let r := f id seg
             let restR := applyIdsToSegment f rest r.2 (insertSet id t)
             (restR.1 + (if r.1 then 1 else 0), restR.2)) by simp [applyIdsToSegment, hp]]
        exact ih ((f id seg).2) (insertSet id t) hxr
          (by rw [hf id seg hp x hid]; exact hpx)
      · rw [show applyIdsToSegment f (id :: rest) seg t =
            applyIdsToSegment f rest seg t by simp [applyIdsToSegment, hp]]
        exact ih seg t hxr hpx

/-! ## Payload-content characterization of the per-point mutators -/

theorem getPayload_modifyPoint_self (op : SeqNumberType) (id : PointIdType)
    (f : SegPoint → SegPoint) (s : Segment) (p : SegPoint)
    (h : alookup id s.data = some p) :
    (s.modifyPoint op id f).getPayload id = some (f p).payload := by
  unfold Segment.modifyPoint Segment.getPayload
  simp [h, alookup_aset_self]

theorem getPayload_modifyPoint_other (op : SeqNumberType) (id' : PointIdType)
    (f : SegPoint → SegPoint) (s : Segment) (id : PointIdType) (h : id ≠ id') :
    (s.modifyPoint op id' f).getPayload id = s.getPayload id := by
  unfold Segment.modifyPoint Segment.getPayload
  cases hh : alookup id' s.data with
  | none => rfl
  | some p => simp [alookup_aset_ne _ _ _ _ h]

theorem setPayloadMutator_getPayload_self (op : SeqNumberType) (payload : PayloadMap)
    (id : PointIdType) :
    ∀ (s : Segment) (p : SegPoint), alookup id s.data = some p →
      ((setPayloadMutator op payload id s).2).getPayload id =
        some (payload.foldl (fun acc kv => aset kv.1 kv.2 acc) p.payload) := by
  induction payload with
  | nil =>
    intro s p h
    unfold setPayloadMutator Segment.getPayload
    simp [h]
  | cons kv tl ih =>
    intro s p h
    have hstep : (setPayloadMutator op (kv :: tl) id s).2 =
        (setPayloadMutator op tl id (s.set_payload_raw op id kv.1 kv.2)).2 := by
      unfold setPayloadMutator
      rw [show (List.foldl (fun acc kv => (acc.1 && true, acc.2.set_payload_raw op id kv.1 kv.2))
          (true, s) (kv :: tl)) =
        (List.foldl (fun acc kv => (acc.1 && true, acc.2.set_payload_raw op id kv.1 kv.2))
          (true && true, s.set_payload_raw op id kv.1 kv.2) tl) from rfl]
      rw [show ((true && true, s.set_payload_raw op id kv.1 kv.2) : Bool × Segment) =
        (true, s.set_payload_raw op id kv.1 kv.2) by simp]
    rw [hstep]
    have hlk : alookup id (s.set_payload_raw op id kv.1 kv.2).data =
        some { p with payload := aset kv.1 kv.2 p.payload } := by
      unfold Segment.set_payload_raw Segment.modifyPoint
      simp [h, alookup_aset_self]
    rw [ih _ _ hlk]
    rfl

theorem setPayloadMutator_getPayload_other (op : SeqNumberType) (payload : PayloadMap)
    (id' : PointIdType) (s : Segment) (id : PointIdType) (h : id ≠ id') :
    ((setPayloadMutator op payload id' s).2).getPayload id = s.getPayload id := by
  induction payload generalizing s with
  | nil => rfl
  | cons kv tl ih =>
    have hstep : (setPayloadMutator op (kv :: tl) id' s).2 =
        (setPayloadMutator op tl id' (s.set_payload_raw op id' kv.1 kv.2)).2 := by
      unfold setPayloadMutator
      rw [show (List.foldl (fun acc kv => (acc.1 && true, acc.2.set_payload_raw op id' kv.1 kv.2))
          (true, s) (kv :: tl)) =
        (List.foldl (fun acc kv => (acc.1 && true, acc.2.set_payload_raw op id' kv.1 kv.2))
          (true && true, s.set_payload_raw op id' kv.1 kv.2) tl) from rfl]
      rw [show ((true && true, s.set_payload_raw op id' kv.1 kv.2) : Bool × Segment) =
        (true, s.set_payload_raw op id' kv.1 kv.2) by simp]
    rw [hstep, ih]
    exact getPayload_modifyPoint_other op id' _ s id h

theorem foldl_aset_lookup_not_mem (payload : PayloadMap) (key : String) (pm : PayloadMap)
    (h : key ∉ payload.map Prod.fst) :
    alookup key (payload.foldl (fun acc kv => aset kv.1 kv.2 acc) pm) = alookup key pm := by
  induction payload generalizing pm with
  | nil => rfl
  | cons kv tl ih =>
    simp only [List.map_cons, List.mem_cons] at h
    push_neg at h
    show alookup key (tl.foldl (fun acc kv => aset kv.1 kv.2 acc) (aset kv.1 kv.2 pm)) = _
    rw [ih _ h.2, alookup_aset_ne _ _ _ _ h.1]

theorem foldl_aset_lookup (payload : PayloadMap) (pm : PayloadMap)
    (hnd : (payload.map Prod.fst).Nodup) (kv : String × String) (hkv : kv ∈ payload) :
    alookup kv.1 (payload.foldl (fun acc kv' => aset kv'.1 kv'.2 acc) pm) = some kv.2 := by
  induction payload generalizing pm with
  | nil => simp at hkv
  | cons hd tl ih =>
    simp only [List.map_cons, List.nodup_cons] at hnd
    rcases List.mem_cons.mp hkv with rfl | htl
    · show alookup kv.1 (tl.foldl (fun acc kv' => aset kv'.1 kv'.2 acc) (aset kv.1 kv.2 pm)) = _
      rw [foldl_aset_lookup_not_mem _ _ _ hnd.1, alookup_aset_self]
    · exact ih (aset hd.1 hd.2 pm) hnd.2 htl

theorem deletePayloadMutator_getPayload_self (op : SeqNumberType) (keys : List String)
    (id : PointIdType) :
    ∀ (s : Segment) (p : SegPoint), alookup id s.data = some p →
      ((deletePayloadMutator op keys id s).2).getPayload id =
        some (keys.foldl (fun acc k => acc.filter (fun kv => decide (kv.1 ≠ k))) p.payload) := by
  induction keys with
  | nil =>
    intro s p h
    unfold deletePayloadMutator Segment.getPayload
    simp [h]
  | cons k tl ih =>
    intro s p h
    have hstep : (deletePayloadMutator op (k :: tl) id s).2 =
        (deletePayloadMutator op tl id (s.delete_payload_raw op id k)).2 := by
      unfold deletePayloadMutator
      rw [show (List.foldl (fun acc key => (acc.1 && true, acc.2.delete_payload_raw op id key))
          (true, s) (k :: tl)) =
        (List.foldl (fun acc key => (acc.1 && true, acc.2.delete_payload_raw op id key))
          (true && true, s.delete_payload_raw op id k) tl) from rfl]
      rw [show ((true && true, s.delete_payload_raw op id k) : Bool × Segment) =
        (true, s.delete_payload_raw op id k) by simp]
    rw [hstep]
    have hlk : alookup id (s.delete_payload_raw op id k).data =
        some { p with payload := p.payload.filter (fun kv => decide (kv.1 ≠ k)) } := by
      unfold Segment.delete_payload_raw Segment.modifyPoint
      simp [h, alookup_aset_self]
    rw [ih _ _ hlk]
    rfl

theorem deletePayloadMutator_getPayload_other (op : SeqNumberType) (keys : List String)
    (id' : PointIdType) (s : Segment) (id : PointIdType) (h : id ≠ id') :
    ((deletePayloadMutator op keys id' s).2).getPayload id = s.getPayload id := by
  induction keys generalizing s with
  | nil => rfl
  | cons k tl ih =>
    have hstep : (deletePayloadMutator op (k :: tl) id' s).2 =
        (deletePayloadMutator op tl id' (s.delete_payload_raw op id' k)).2 := by
      unfold deletePayloadMutator
      rw [show (List.foldl (fun acc key => (acc.1 && true, acc.2.delete_payload_raw op id' key))
          (true, s) (k :: tl)) =
        (List.foldl (fun acc key => (acc.1 && true, acc.2.delete_payload_raw op id' key))
          (true && true, s.delete_payload_raw op id' k) tl) from rfl]
      rw [show ((true && true, s.delete_payload_raw op id' k) : Bool × Segment) =
        (true, s.delete_payload_raw op id' k) by simp]
    rw [hstep, ih]
    exact getPayload_modifyPoint_other op id' _ s id h

theorem alookup_filter_ne_self (pm : PayloadMap) (k : String) :
    alookup k (pm.filter (fun kv => decide (kv.1 ≠ k))) = none := by
  induction pm with
  | nil => rfl
  | cons kv tl ih =>
    by_cases h : kv.1 = k
    · simp only [List.filter_cons, h]
      simpa using ih
    · rw [List.filter_cons_of_pos (by simpa using h)]
      unfold alookup
      rw [if_neg (fun hk => h hk.symm)]
      exact ih

theorem alookup_filter_none (pm : PayloadMap) (q : String × String → Bool) (k : String)
    (h : alookup k pm = none) : alookup k (pm.filter q) = none := by
  induction pm with
  | nil => rfl
  | cons kv tl ih =>
    unfold alookup at h
    by_cases hk : k = kv.1
    · rw [if_pos hk] at h; cases h
    · rw [if_neg hk] at h
      by_cases hq : q kv
      · rw [List.filter_cons_of_pos hq]
        unfold alookup
        rw [if_neg hk]
        exact ih h
      · rw [List.filter_cons_of_neg hq]
        exact ih h

theorem foldl_filter_preserves_none (keys : List String) (k : String) :
    ∀ (pm : PayloadMap), alookup k pm = none →
      alookup k (keys.foldl (fun acc key => acc.filter (fun kv => decide (kv.1 ≠ key))) pm) =
        none := by
  induction keys with
  | nil => intro pm h; exact h
  | cons hd tl ih =>
    intro pm h
    exact ih _ (alookup_filter_none _ _ _ h)

theorem foldl_filter_keys_none (keys : List String) (k : String) :
    ∀ (pm : PayloadMap), k ∈ keys →
      alookup k (keys.foldl (fun acc key => acc.filter (fun kv => decide (kv.1 ≠ key))) pm) =
        none := by
  induction keys with
  | nil => intro pm h; simp at h
  | cons hd tl ih =>
    intro pm h
    show alookup k (tl.foldl _ (pm.filter (fun kv => decide (kv.1 ≠ hd)))) = none
    rcases List.mem_cons.mp h with rfl | htl
    · exact foldl_filter_preserves_none tl k _ (alookup_filter_ne_self pm k)
    · exact ih _ htl

/-! ## Result/state shape of the payload operations -/

theorem set_payload_state (op : SeqNumberType) (payload : PayloadMap)
    (points : List PointIdType) (holder : List Segment) :
    (SimpleSegmentUpdater.set_payload op payload points holder).2 =
      (SegmentHolder.apply_points op points (setPayloadMutator op payload) holder).2.1 := by
  unfold SimpleSegmentUpdater.set_payload
  split <;> rfl

theorem set_payload_result (op : SeqNumberType) (payload : PayloadMap)
    (points : List PointIdType) (holder : List Segment) :
    (SimpleSegmentUpdater.set_payload op payload points holder).1 =
      (match SimpleSegmentUpdater.check_unprocessed_points points
          (SegmentHolder.apply_points op points (setPayloadMutator op payload) holder).2.2 with
        | .ok _ =>
          .ok (SegmentHolder.apply_points op points (setPayloadMutator op payload) holder).1
        | .error e => .error e) := by
  unfold SimpleSegmentUpdater.set_payload
  split <;> rfl

theorem delete_payload_state (op : SeqNumberType) (points : List PointIdType)
    (keys : List String) (holder : List Segment) :
    (SimpleSegmentUpdater.delete_payload op points keys holder).2 =
      (SegmentHolder.apply_points op points (deletePayloadMutator op keys) holder).2.1 := by
  unfold SimpleSegmentUpdater.delete_payload
  split <;> rfl

theorem delete_payload_result (op : SeqNumberType) (points : List PointIdType)
    (keys : List String) (holder : List Segment) :
    (SimpleSegmentUpdater.delete_payload op points keys holder).1 =
      (match SimpleSegmentUpdater.check_unprocessed_points points
          (SegmentHolder.apply_points op points (deletePayloadMutator op keys) holder).2.2 with
        | .ok _ =>
          .ok (SegmentHolder.apply_points op points (deletePayloadMutator op keys) holder).1
        | .error e => .error e) := by
  unfold SimpleSegmentUpdater.delete_payload
  split <;> rfl

theorem clear_payload_state (op : SeqNumberType) (points : List PointIdType)
    (holder : List Segment) :
    (SimpleSegmentUpdater.clear_payload op points holder).2 =
      (SegmentHolder.apply_points op points
        (fun id seg => (true, seg.clear_payload_raw op id)) holder).2.1 := by
  unfold SimpleSegmentUpdater.clear_payload
  split <;> rfl

theorem clear_payload_result (op : SeqNumberType) (points : List PointIdType)
    (holder : List Segment) :
    (SimpleSegmentUpdater.clear_payload op points holder).1 =
      (match SimpleSegmentUpdater.check_unprocessed_points points
          (SegmentHolder.apply_points op points
            (fun id seg => (true, seg.clear_payload_raw op id)) holder).2.2 with
        | .ok _ =>
          .ok (SegmentHolder.apply_points op points
            (fun id seg => (true, seg.clear_payload_raw op id)) holder).1
        | .error e => .error e) := by
  unfold SimpleSegmentUpdater.clear_payload
  split <;> rfl

theorem has_point_of_getPayload (s : Segment) (id : PointIdType) (pm : PayloadMap)
    (h : s.getPayload id = some pm) :
    ∃ p, alookup id s.data = some p ∧ p.payload = pm := by
  unfold Segment.getPayload at h
  cases hh : alookup id s.data with
  | none => rw [hh] at h; cases h
  | some p =>
    rw [hh] at h
    exact ⟨p, rfl, by simpa using h⟩

/-- C4 (amended): each of SetPayload, DeletePayload and ClearPayload over an
id list returns `NotFound{missed_point_id}` naming the first id of the list in
input order that was touched by no segment — i.e. contained in no segment
whose `version()` is below `op` — iff some id of the list was touched by no
segment; and the mutations already applied to the ids that were found are
retained in the returned holder (partial success, no rollback). -/
theorem payload_ops_notfound_semantics (op : SeqNumberType) (payload : PayloadMap)
    (keys : List String) (points : List PointIdType) (holder : List Segment) :
    NotFoundSpec op points holder (SimpleSegmentUpdater.set_payload op payload points holder).1 ∧
    NotFoundSpec op points holder
      (SimpleSegmentUpdater.delete_payload op points keys holder).1 ∧
    NotFoundSpec op points holder (SimpleSegmentUpdater.clear_payload op points holder).1 ∧
    ((payload.map Prod.fst).Nodup →
      ∀ x ∈ points, ∀ (i : Nat) (seg : Segment), holder.get? i = some seg → seg.version < op →
        seg.has_point x = true → ∀ kv ∈ payload,
        ∃ seg', (SimpleSegmentUpdater.set_payload op payload points holder).2.get? i =
            some seg' ∧
          ∃ pm, seg'.getPayload x = some pm ∧ alookup kv.1 pm = some kv.2) ∧
    (∀ x ∈ points, ∀ (i : Nat) (seg : Segment), holder.get? i = some seg → seg.version < op →
        seg.has_point x = true → ∀ k ∈ keys,
        ∃ seg', (SimpleSegmentUpdater.delete_payload op points keys holder).2.get? i =
            some seg' ∧
          ∃ pm, seg'.getPayload x = some pm ∧ alookup k pm = none) ∧
    (∀ x ∈ points, ∀ (i : Nat) (seg : Segment), holder.get? i = some seg → seg.version < op →
        seg.has_point x = true →
        ∃ seg', (SimpleSegmentUpdater.clear_payload op points holder).2.get? i = some seg' ∧
          seg'.getPayload x = some ([] : PayloadMap)) := by
  refine ⟨?_, ?_, ?_, ?_, ?_, ?_⟩
  · rw [set_payload_result]
    exact notfound_spec_of_touched op points holder _ _
      (fun x => apply_points_touched op points _
        (fun i s _ j => has_point_setPayloadMutator op payload i s j) holder x)
  · rw [delete_payload_result]
    exact notfound_spec_of_touched op points holder _ _
      (fun x => apply_points_touched op points _
        (fun i s _ j => has_point_deletePayloadMutator op keys i s j) holder x)
  · rw [clear_payload_result]
    exact notfound_spec_of_touched op points holder _ _
      (fun x => apply_points_touched op points _
        (fun i s _ j => has_point_clear_payload_raw op i s j) holder x)
  · intro hnd x hx i seg hget hver hp kv hkv
    rw [set_payload_state, apply_points_get, hget]
    simp [hver]
    refine applyIds_establish _
      (fun s => ∃ pm, s.getPayload x = some pm ∧ alookup kv.1 pm = some kv.2) x
      (fun i' s _ j _ => has_point_setPayloadMutator op payload i' s j) ?_ ?_ points seg [] hx hp
    · intro i' s hs
      by_cases hxi : x = i'
      · subst hxi
        obtain ⟨pm, hpm, _⟩ := hs
        obtain ⟨p, hplk, _⟩ := has_point_of_getPayload s x pm hpm
        rw [setPayloadMutator_getPayload_self op payload x s p hplk]
        exact ⟨_, rfl, foldl_aset_lookup payload p.payload hnd kv hkv⟩
      · rw [setPayloadMutator_getPayload_other op payload i' s x hxi]
        exact hs
    · intro s hps
      unfold Segment.has_point at hps
      cases hplk : alookup x s.data with
      | none => rw [hplk] at hps; cases hps
      | some p =>
        rw [setPayloadMutator_getPayload_self op payload x s p hplk]
        exact ⟨_, rfl, foldl_aset_lookup payload p.payload hnd kv hkv⟩
  · intro x hx i seg hget hver hp k hk
    rw [delete_payload_state, apply_points_get, hget]
    simp [hver]
    refine applyIds_establish _
      (fun s => ∃ pm, s.getPayload x = some pm ∧ alookup k pm = none) x
      (fun i' s _ j _ => has_point_deletePayloadMutator op keys i' s j) ?_ ?_ points seg [] hx hp
    · intro i' s hs
      by_cases hxi : x = i'
      · subst hxi
        obtain ⟨pm, hpm, _⟩ := hs
        obtain ⟨p, hplk, _⟩ := has_point_of_getPayload s x pm hpm
        rw [deletePayloadMutator_getPayload_self op keys x s p hplk]
        exact ⟨_, rfl, foldl_filter_keys_none keys k p.payload hk⟩
      · rw [deletePayloadMutator_getPayload_other op keys i' s x hxi]
        exact hs
    · intro s hps
      unfold Segment.has_point at hps
      cases hplk : alookup x s.data with
      | none => rw [hplk] at hps; cases hps
      | some p =>
        rw [deletePayloadMutator_getPayload_self op keys x s p hplk]
        exact ⟨_, rfl, foldl_filter_keys_none keys k p.payload hk⟩
  · intro x hx i seg hget hver hp
    rw [clear_payload_state, apply_points_get, hget]
    simp [hver]
    refine applyIds_establish _
      (fun s => s.getPayload x = some ([] : PayloadMap)) x
      (fun i' s _ j _ => has_point_clear_payload_raw op i' s j) ?_ ?_ points seg [] hx hp
    · intro i' s hs
      by_cases hxi : x = i'
      · subst hxi
        obtain ⟨p, hplk, _⟩ := has_point_of_getPayload s x _ hs
        exact getPayload_modifyPoint_self op x _ s p hplk
      · show (s.modifyPoint op i' _).getPayload x = _
        rw [getPayload_modifyPoint_other op i' _ s x hxi]
        exact hs
    · intro s hps
      unfold Segment.has_point at hps
      cases hplk : alookup x s.data with
      | none => rw [hplk] at hps; cases hps
      | some p => exact getPayload_modifyPoint_self op x _ s p hplk

/-- C4 counterexample: with one segment at version 5 holding point 1, a
SetPayload at `op = 3` returns `NotFound 1` although id 1 *is* contained in a
segment — the fan-out skips segments whose version is not below `op`, so
"contained in no segment" does not characterize the error. -/
theorem set_payload_notfound_despite_containment :
    (SimpleSegmentUpdater.set_payload 3 [("c", "red")] [1]
        [{ version := 5, data := [(1, { vector := [], payload := [] })] }]).1 =
      .error (.NotFound 1) ∧
    (∀ x ∈ ([1] : List PointIdType),
      ∃ seg ∈ ([{ version := 5, data := [(1, { vector := [], payload := [] })] }] :
          List Segment), seg.has_point x = true) := by
  constructor
  · decide
  · decide


/-- Witness for C4 (amended) at a concrete input: SetPayload over `[1, 2]`
where id 2 is nowhere reports `NotFound`, while the payload written to the
found id 1 is retained in the returned holder. -/
theorem payload_ops_notfound_semantics_witness :
    (∃ m, (SimpleSegmentUpdater.set_payload 3 [("c", "red")] [1, 2] [segC4]).1 =
      .error (.NotFound m)) ∧
    (∃ seg', (SimpleSegmentUpdater.set_payload 3 [("c", "red")] [1, 2] [segC4]).2.get? 0 =
        some seg' ∧ ∃ pm, seg'.getPayload 1 = some pm ∧ alookup "c" pm = some "red") := by
  constructor
  · exact (payload_ops_notfound_semantics 3 [("c", "red")] [] [1, 2] [segC4]).1.1.mpr
      ⟨2, by decide, by decide⟩
  · exact (payload_ops_notfound_semantics 3 [("c", "red")] [] [1, 2] [segC4]).2.2.2.1
      (by decide) 1 (by decide) 0 segC4 rfl (by decide) (by decide) ("c", "red") (by decide)

/-! ## Upsert-specific lemmas -/

theorem has_point_upsert_raw (op : SeqNumberType) (i : PointIdType) (vec : VectorType)
    (s : Segment) (j : PointIdType) :
    (s.upsert_point_raw op i vec).has_point j = (decide (j = i) || s.has_point j) := by
  unfold Segment.upsert_point_raw Segment.has_point
  by_cases h : j = i
  · subst h
    simp [alookup_aset_self]
  · simp [alookup_aset_ne _ _ _ _ h, h]

theorem upsertMutator_has_point_stable (op : SeqNumberType)
    (pm : List (PointIdType × VectorType)) (i : PointIdType) (s : Segment)
    (hc : s.has_point i = true) (j : PointIdType) :
    ((upsertMutator op pm i s).2).has_point j = s.has_point j := by
  show (s.upsert_point_raw op i _).has_point j = s.has_point j
  rw [has_point_upsert_raw]
  by_cases h : j = i
  · subst h
    simp [hc]
  · simp [h]

theorem getVec_upsert_raw_self (op : SeqNumberType) (i : PointIdType) (vec : VectorType)
    (s : Segment) : (s.upsert_point_raw op i vec).getVec i = some vec := by
  unfold Segment.upsert_point_raw Segment.getVec
  simp [alookup_aset_self]

theorem getVec_upsert_raw_other (op : SeqNumberType) (i : PointIdType) (vec : VectorType)
    (s : Segment) (j : PointIdType) (h : j ≠ i) :
    (s.upsert_point_raw op i vec).getVec j = s.getVec j := by
  unfold Segment.upsert_point_raw Segment.getVec
  simp [alookup_aset_ne _ _ _ _ h]

theorem alookup_zip_isSome (ids : List PointIdType) (vectors : List VectorType)
    (hlen : ids.length = vectors.length) (x : PointIdType) (hx : x ∈ ids) :
    ∃ v, alookup x (ids.zip vectors) = some v := by
  induction ids generalizing vectors with
  | nil => simp at hx
  | cons id rest ih =>
    cases vectors with
    | nil => simp at hlen
    | cons v vs =>
      by_cases h : x = id
      · subst h
        exact ⟨v, by simp [alookup]⟩
      · rcases List.mem_cons.mp hx with rfl | hxr
        · exact absurd rfl h
        · obtain ⟨w, hw⟩ := ih vs (by simpa using hlen) hxr
          exact ⟨w, by simpa [alookup, h] using hw⟩

theorem foldl_upsert_preserves_getVec (op : SeqNumberType)
    (g : PointIdType → VectorType) (r : PointIdType) :
    ∀ (l : List PointIdType) (s : Segment), s.getVec r = some (g r) →
      (l.foldl (fun s i => s.upsert_point_raw op i (g i)) s).getVec r = some (g r) := by
  intro l
  induction l with
  | nil => intro s h; exact h
  | cons i rest ih =>
    intro s h
    by_cases hi : r = i
    · subst hi
      exact ih _ (getVec_upsert_raw_self op r (g r) s)
    · exact ih _ (by rw [getVec_upsert_raw_other op i (g i) s r hi]; exact h)

theorem foldl_upsert_getVec (op : SeqNumberType) (g : PointIdType → VectorType)
    (r : PointIdType) :
    ∀ (l : List PointIdType) (s : Segment), r ∈ l →
      (l.foldl (fun s i => s.upsert_point_raw op i (g i)) s).getVec r = some (g r) := by
  intro l
  induction l with
  | nil => intro s h; simp at h
  | cons i rest ih =>
    intro s h
    rcases List.mem_cons.mp h with rfl | hr
    · exact foldl_upsert_preserves_getVec op g r rest _ (getVec_upsert_raw_self op r (g r) s)
    · exact ih _ hr

theorem upsert_points_cons (op : SeqNumberType) (ids : List PointIdType)
    (vectors : List VectorType) (seg : Segment) (rest : List Segment) :
    SimpleSegmentUpdater.upsert_points op ids vectors (seg :: rest) =
      (.ok (SegmentHolder.apply_points op ids (upsertMutator op (ids.zip vectors))
          (seg :: rest)).1,
       residualUpsert op
         (ids.filter (fun x => decide (x ∉
           (SegmentHolder.apply_points op ids (upsertMutator op (ids.zip vectors))
             (seg :: rest)).2.2)))
         (ids.zip vectors)
         (if seg.version < op
           then (applyIdsToSegment (upsertMutator op (ids.zip vectors)) ids seg []).2.1
           else seg)
         :: (SegmentHolder.apply_points op ids (upsertMutator op (ids.zip vectors)) rest).2.1) := by
  by_cases h : seg.version < op <;>
    simp [SimpleSegmentUpdater.upsert_points, SegmentHolder.apply_points, h]

/-- C3 (amended): for every aligned Upsert on a non-empty holder,
`upsert_point` is applied via `apply_points` to every segment below `op` that
already contains the id (the new vector is visible there afterwards); the
residual ids — those touched by no segment — are all passed to `upsert_point`
on the one segment `random_segment()` returned (the holder head), which
inserts them exactly when that segment's version is below `op` and is a no-op
otherwise; and the returned count is the `apply_points` count, excluding the
residual inserts. -/
theorem upsert_points_routing (op : SeqNumberType) (ids : List PointIdType)
    (vectors : List VectorType) (holder : List Segment)
    (hlen : ids.length = vectors.length) (hne : holder ≠ []) :
    ((SimpleSegmentUpdater.upsert_points op ids vectors holder).1 =
      .ok (SegmentHolder.apply_points op ids (upsertMutator op (ids.zip vectors)) holder).1) ∧
    (∀ x ∈ ids, ∀ (i : Nat) (seg : Segment), holder.get? i = some seg → seg.version < op →
      seg.has_point x = true →
      ∃ seg', (SimpleSegmentUpdater.upsert_points op ids vectors holder).2.get? i =
          some seg' ∧
        seg'.getVec x = alookup x (ids.zip vectors)) ∧
    (∀ x ∈ ids, ¬ touchedBySome op holder x →
      ∃ h1 t1, (SegmentHolder.apply_points op ids
          (upsertMutator op (ids.zip vectors)) holder).2.1 = h1 :: t1 ∧
        (h1.version < op →
          ∃ h', (SimpleSegmentUpdater.upsert_points op ids vectors holder).2 = h' :: t1 ∧
            h'.getVec x = alookup x (ids.zip vectors)) ∧
        (¬ h1.version < op →
          (SimpleSegmentUpdater.upsert_points op ids vectors holder).2 = h1 :: t1)) := by
  cases holder with
  | nil => exact absurd rfl hne
  | cons seg0 rest0 =>
  have hf : ∀ i s, Segment.has_point s i = true → ∀ j,
      ((upsertMutator op (ids.zip vectors) i s).2).has_point j = s.has_point j :=
    fun i s hc j => upsertMutator_has_point_stable op (ids.zip vectors) i s hc j
  have hstep : ∀ (x : PointIdType) (i' : PointIdType) (s : Segment),
      s.getVec x = some ((alookup x (ids.zip vectors)).getD []) →
      ((upsertMutator op (ids.zip vectors) i' s).2).getVec x =
        some ((alookup x (ids.zip vectors)).getD []) := by
    intro x i' s hs
    by_cases hxi : x = i'
    · subst hxi
      exact getVec_upsert_raw_self op x _ s
    · show (s.upsert_point_raw op i' _).getVec x = _
      rw [getVec_upsert_raw_other op i' _ s x hxi]
      exact hs
  have happ : ∀ (x : PointIdType) (s : Segment), s.has_point x = true →
      ((upsertMutator op (ids.zip vectors) x s).2).getVec x =
        some ((alookup x (ids.zip vectors)).getD []) :=
    fun x s _ => getVec_upsert_raw_self op x _ s
  have hgdv : ∀ x ∈ ids, some ((alookup x (ids.zip vectors)).getD ([] : VectorType)) =
      alookup x (ids.zip vectors) := by
    intro x hx
    obtain ⟨v, hv⟩ := alookup_zip_isSome ids vectors hlen x hx
    rw [hv]
    rfl
  have hresid : ∀ (x : PointIdType) (s : Segment),
      s.getVec x = some ((alookup x (ids.zip vectors)).getD []) →
      ∀ (resid : List PointIdType),
      (residualUpsert op resid (ids.zip vectors) s).getVec x =
        some ((alookup x (ids.zip vectors)).getD []) := by
    intro x s hs resid
    unfold residualUpsert
    by_cases hc : s.version < op
    · rw [if_pos hc]
      exact foldl_upsert_preserves_getVec op (fun i => (alookup i (ids.zip vectors)).getD [])
        x resid s hs
    · rw [if_neg hc]
      exact hs
  refine ⟨by rw [upsert_points_cons], ?_, ?_⟩
  · intro x hx i seg hget hver hp
    cases i with
    | zero =>
      simp only [List.get?_cons_zero, Option.some.injEq] at hget
      subst hget
      rw [upsert_points_cons]
      refine ⟨_, rfl, ?_⟩
      rw [← hgdv x hx]
      refine hresid x _ ?_ _
      rw [if_pos hver]
      exact applyIds_establish _ _ x (fun i s hc j _ => hf i s hc j) (hstep x) (happ x) ids seg0 [] hx hp
    | succ n =>
      simp only [List.get?_cons_succ] at hget
      rw [upsert_points_cons]
      show ∃ seg', ((SegmentHolder.apply_points op ids
          (upsertMutator op (ids.zip vectors)) rest0).2.1).get? n = some seg' ∧ _
      rw [apply_points_get, hget]
      simp [hver]
      rw [← hgdv x hx]
      exact applyIds_establish _ _ x (fun i s hc j _ => hf i s hc j) (hstep x) (happ x) ids seg [] hx hp
  · intro x hx hnt
    have hxnt : x ∉ (SegmentHolder.apply_points op ids
        (upsertMutator op (ids.zip vectors)) (seg0 :: rest0)).2.2 := by
      intro hmem
      exact hnt ((apply_points_touched op ids _ hf (seg0 :: rest0) x).mp hmem).2
    refine ⟨(if seg0.version < op
        then (applyIdsToSegment (upsertMutator op (ids.zip vectors)) ids seg0 []).2.1
        else seg0),
      (SegmentHolder.apply_points op ids (upsertMutator op (ids.zip vectors)) rest0).2.1,
      ?_, ?_, ?_⟩
    · by_cases h : seg0.version < op <;> simp [SegmentHolder.apply_points, h]
    · intro hfresh
      rw [upsert_points_cons]
      refine ⟨_, rfl, ?_⟩
      unfold residualUpsert
      rw [if_pos hfresh]
      rw [← hgdv x hx]
      refine foldl_upsert_getVec op _ x _ _ ?_
      rw [List.mem_filter]
      exact ⟨hx, by simpa using hxnt⟩
    · intro hstale
      rw [upsert_points_cons]
      unfold residualUpsert
      rw [if_neg hstale]

/-- C3 counterexample: with the only segment (hence the one `random_segment`
returns) at version 10 and `op = 5`, the residual id 9 is *not* inserted: the
segment-level version guard absorbs the residual `upsert_point` as a no-op, so
the holder stays unchanged and no segment holds 9, while the operation still
returns Ok 0. -/
theorem upsert_residual_not_inserted_counterexample :
    SimpleSegmentUpdater.upsert_points 5 [9] [[1]] [staleSeg] = (.ok 0, [staleSeg]) ∧
    ¬ touchedBySome 5 [staleSeg] 9 ∧
    SegmentHolder.random_segment [staleSeg] = some staleSeg ∧
    staleSeg.has_point 9 = false := by
  refine ⟨by decide, by decide, by decide, by decide⟩

/-- Witness for C3 (amended) at a concrete input: upserting `[7, 9]` where 7
lives in the second segment and 9 is new — the count comes from the apply
step, 7's vector is updated in place, and 9 lands in the (fresh) head. -/
theorem upsert_points_routing_witness :
    ((SimpleSegmentUpdater.upsert_points 5 [7, 9] [[1], [2]] [segB0, segA7]).1 =
      .ok (SegmentHolder.apply_points 5 [7, 9]
        (upsertMutator 5 ([7, 9].zip [[1], [2]])) [segB0, segA7]).1) ∧
    (∃ seg', (SimpleSegmentUpdater.upsert_points 5 [7, 9] [[1], [2]]
        [segB0, segA7]).2.get? 1 = some seg' ∧
      seg'.getVec 7 = alookup 7 ([7, 9].zip [[1], [2]])) ∧
    (∃ h1 t1, (SegmentHolder.apply_points 5 [7, 9]
        (upsertMutator 5 ([7, 9].zip [[1], [2]])) [segB0, segA7]).2.1 = h1 :: t1 ∧
      (h1.version < 5 →
        ∃ h', (SimpleSegmentUpdater.upsert_points 5 [7, 9] [[1], [2]]
            [segB0, segA7]).2 = h' :: t1 ∧
          h'.getVec 9 = alookup 9 ([7, 9].zip [[1], [2]])) ∧
      (¬ h1.version < 5 →
        (SimpleSegmentUpdater.upsert_points 5 [7, 9] [[1], [2]]
          [segB0, segA7]).2 = h1 :: t1)) := by
  refine ⟨(upsert_points_routing 5 [7, 9] [[1], [2]] [segB0, segA7]
      (by decide) (by decide)).1, ?_, ?_⟩
  · exact (upsert_points_routing 5 [7, 9] [[1], [2]] [segB0, segA7]
      (by decide) (by decide)).2.1 7 (by decide) 1 segA7 rfl (by decide) (by decide)
  · exact (upsert_points_routing 5 [7, 9] [[1], [2]] [segB0, segA7]
      (by decide) (by decide)).2.2 9 (by decide) (by decide)

/-! ## Version/replay lemmas for apply_points and apply_segments -/

theorem unionSet_nil (b : List PointIdType) : unionSet [] b = b := rfl

theorem applyIds_no_invoke (f : PointIdType → Segment → Bool × Segment) :
    ∀ (ids : List PointIdType) (seg : Segment) (t : List PointIdType),
      (∀ id ∈ ids, seg.has_point id = false) →
      applyIdsToSegment f ids seg t = (0, seg, t) := by
  intro ids
  induction ids with
  | nil => intro seg t _; rfl
  | cons id rest ih =>
    intro seg t h
    have hid : seg.has_point id = false := h id (List.mem_cons_self _ _)
    rw [show applyIdsToSegment f (id :: rest) seg t = applyIdsToSegment f rest seg t by
      simp [applyIdsToSegment, hid]]
    exact ih seg t (fun id' hid' => h id' (List.mem_cons_of_mem _ hid'))

theorem applyIds_cases (op : SeqNumberType) (f : PointIdType → Segment → Bool × Segment)
    (hver : ∀ i s, (f i s).2 = s ∨ ((f i s).2).version = op) :
    ∀ (ids : List PointIdType) (seg : Segment) (t : List PointIdType),
      (applyIdsToSegment f ids seg t).2.1 = seg ∨
        ((applyIdsToSegment f ids seg t).2.1).version = op := by
  intro ids
  induction ids with
  | nil => intro seg t; exact Or.inl rfl
  | cons id rest ih =>
    intro seg t
    by_cases hp : seg.has_point id
    · rw [show applyIdsToSegment f (id :: rest) seg t =
          (let r := f id seg
           let restR := applyIdsToSegment f rest r.2 (insertSet id t)
           (restR.1 + (if r.1 then 1 else 0), restR.2)) by simp [applyIdsToSegment, hp]]
      show (applyIdsToSegment f rest (f id seg).2 (insertSet id t)).2.1 = seg ∨
        ((applyIdsToSegment f rest (f id seg).2 (insertSet id t)).2.1).version = op
      rcases hver id seg with heq | hop
      · rw [heq]
        exact ih seg (insertSet id t)
      · rcases ih ((f id seg).2) (insertSet id t) with heq | h2
        · rw [heq]
          exact Or.inr hop
        · exact Or.inr h2
    · rw [show applyIdsToSegment f (id :: rest) seg t =
          applyIdsToSegment f rest seg t by simp [applyIdsToSegment, hp]]
      exact ih seg t

theorem apply_points_noop (op : SeqNumberType) (ids : List PointIdType)
    (f : PointIdType → Segment → Bool × Segment) :
    ∀ (holder : List Segment),
      (∀ seg ∈ holder, seg.version < op → ∀ id ∈ ids, seg.has_point id = false) →
      SegmentHolder.apply_points op ids f holder = (0, holder, []) := by
  intro holder
  induction holder with
  | nil => intro _; rfl
  | cons seg rest ih =>
    intro h
    have hrest := ih (fun s hs => h s (List.mem_cons_of_mem _ hs))
    unfold SegmentHolder.apply_points
    rw [hrest]
    by_cases hv : seg.version < op
    · rw [if_pos hv, applyIds_no_invoke f ids seg []
        (h seg (List.mem_cons_self _ _) hv)]
      rfl
    · rw [if_neg hv]
      rfl

theorem apply_points_skip_stale (op : SeqNumberType) (ids : List PointIdType)
    (f : PointIdType → Segment → Bool × Segment) :
    ∀ (holder : List Segment),
      (SegmentHolder.apply_points op ids f
        (holder.filter (fun s => decide (s.version < op)))).1 =
        (SegmentHolder.apply_points op ids f holder).1 ∧
      (SegmentHolder.apply_points op ids f
        (holder.filter (fun s => decide (s.version < op)))).2.2 =
        (SegmentHolder.apply_points op ids f holder).2.2 := by
  intro holder
  induction holder with
  | nil => exact ⟨rfl, rfl⟩
  | cons seg rest ih =>
    by_cases hv : seg.version < op
    · rw [List.filter_cons_of_pos (by simpa using hv)]
      constructor
      · simp only [SegmentHolder.apply_points]
        simp [hv, ih.1]
      · simp only [SegmentHolder.apply_points]
        simp [hv, ih.2]
    · rw [List.filter_cons_of_neg (by simpa using hv)]
      constructor
      · simp only [SegmentHolder.apply_points]
        simp [hv, ih.1]
      · simp only [SegmentHolder.apply_points]
        simp [hv, ih.2, unionSet_nil]

theorem apply_segments_get (op : SeqNumberType) (f : Segment → Bool × Segment)
    (holder : List Segment) (i : Nat) :
    (SegmentHolder.apply_segments op f holder).2.get? i =
      (holder.get? i).map (fun seg => if seg.version < op then (f seg).2 else seg) := by
  induction holder generalizing i with
  | nil => rfl
  | cons seg rest ih =>
    cases i with
    | zero =>
      by_cases h : seg.version < op <;> simp [SegmentHolder.apply_segments, h]
    | succ n => simpa [SegmentHolder.apply_segments] using ih n

theorem apply_segments_stale_noop (op : SeqNumberType) (f : Segment → Bool × Segment) :
    ∀ (holder : List Segment), (∀ seg ∈ holder, ¬ seg.version < op) →
      SegmentHolder.apply_segments op f holder = (0, holder) := by
  intro holder
  induction holder with
  | nil => intro _; rfl
  | cons seg rest ih =>
    intro h
    unfold SegmentHolder.apply_segments
    rw [ih (fun s hs => h s (List.mem_cons_of_mem _ hs)),
      if_neg (h seg (List.mem_cons_self _ _))]
    rfl

theorem applyIds_state_id (f : PointIdType → Segment → Bool × Segment)
    (hid : ∀ i s, (f i s).2 = s) :
    ∀ (ids : List PointIdType) (seg : Segment) (t : List PointIdType),
      (applyIdsToSegment f ids seg t).2.1 = seg := by
  intro ids
  induction ids with
  | nil => intro seg t; rfl
  | cons id rest ih =>
    intro seg t
    by_cases hp : seg.has_point id
    · rw [show applyIdsToSegment f (id :: rest) seg t =
          (let r := f id seg
           let restR := applyIdsToSegment f rest r.2 (insertSet id t)
           (restR.1 + (if r.1 then 1 else 0), restR.2)) by simp [applyIdsToSegment, hp]]
      show (applyIdsToSegment f rest (f id seg).2 (insertSet id t)).2.1 = seg
      rw [hid id seg]
      exact ih seg _
    · rw [show applyIdsToSegment f (id :: rest) seg t =
          applyIdsToSegment f rest seg t by simp [applyIdsToSegment, hp]]
      exact ih seg t

theorem apply_points_state_id (op : SeqNumberType) (ids : List PointIdType)
    (f : PointIdType → Segment → Bool × Segment) (hid : ∀ i s, (f i s).2 = s) :
    ∀ (holder : List Segment), (SegmentHolder.apply_points op ids f holder).2.1 = holder := by
  intro holder
  induction holder with
  | nil => rfl
  | cons seg rest ih =>
    show (if seg.version < op then applyIdsToSegment f ids seg [] else (0, seg, [])).2.1 ::
        _ = _
    rw [ih]
    by_cases hv : seg.version < op
    · rw [if_pos hv, applyIds_state_id f hid]
    · rw [if_neg hv]

/-! ## Per-mutator version facts -/

theorem upsertMutator_version (op : SeqNumberType) (pm : List (PointIdType × VectorType))
    (i : PointIdType) (s : Segment) : ((upsertMutator op pm i s).2).version = op := rfl

theorem deleteMutator_version (op : SeqNumberType) (i : PointIdType) (s : Segment) :
    (s.delete_point_raw op i).version = op := rfl

theorem clearMutator_version (op : SeqNumberType) (i : PointIdType) (s : Segment) :
    (s.clear_payload_raw op i).version = op := rfl

theorem setPayload_fold_version (op : SeqNumberType) (id : PointIdType) :
    ∀ (tl : PayloadMap) (b : Bool) (s : Segment), s.version = op →
      ((List.foldl (fun acc kv => (acc.1 && true, acc.2.set_payload_raw op id kv.1 kv.2))
        (b, s) tl).2).version = op := by
  intro tl
  induction tl with
  | nil => intro b s h; exact h
  | cons kv rest ih =>
    intro b s h
    exact ih (b && true) (s.set_payload_raw op id kv.1 kv.2) rfl

theorem setPayloadMutator_cases (op : SeqNumberType) (payload : PayloadMap)
    (i : PointIdType) (s : Segment) :
    (setPayloadMutator op payload i s).2 = s ∨
      ((setPayloadMutator op payload i s).2).version = op := by
  cases payload with
  | nil => exact Or.inl rfl
  | cons kv tl =>
    refine Or.inr ?_
    show ((List.foldl (fun acc kv => (acc.1 && true, acc.2.set_payload_raw op i kv.1 kv.2))
      (true && true, s.set_payload_raw op i kv.1 kv.2) tl).2).version = op
    exact setPayload_fold_version op i tl _ _ rfl

theorem deletePayload_fold_version (op : SeqNumberType) (id : PointIdType) :
    ∀ (tl : List String) (b : Bool) (s : Segment), s.version = op →
      ((List.foldl (fun acc key => (acc.1 && true, acc.2.delete_payload_raw op id key))
        (b, s) tl).2).version = op := by
  intro tl
  induction tl with
  | nil => intro b s h; exact h
  | cons k rest ih =>
    intro b s h
    exact ih (b && true) (s.delete_payload_raw op id k) rfl

theorem deletePayloadMutator_cases (op : SeqNumberType) (keys : List String)
    (i : PointIdType) (s : Segment) :
    (deletePayloadMutator op keys i s).2 = s ∨
      ((deletePayloadMutator op keys i s).2).version = op := by
  cases keys with
  | nil => exact Or.inl rfl
  | cons k tl =>
    refine Or.inr ?_
    show ((List.foldl (fun acc key => (acc.1 && true, acc.2.delete_payload_raw op i key))
      (true && true, s.delete_payload_raw op i k) tl).2).version = op
    exact deletePayload_fold_version op i tl _ _ rfl

theorem setPayloadMutator_version_ne_nil (op : SeqNumberType) (payload : PayloadMap)
    (hne : payload ≠ []) (i : PointIdType) (s : Segment) :
    ((setPayloadMutator op payload i s).2).version = op := by
  cases payload with
  | nil => exact absurd rfl hne
  | cons kv tl =>
    show ((List.foldl (fun acc kv => (acc.1 && true, acc.2.set_payload_raw op i kv.1 kv.2))
      (true && true, s.set_payload_raw op i kv.1 kv.2) tl).2).version = op
    exact setPayload_fold_version op i tl _ _ rfl

theorem deletePayloadMutator_version_ne_nil (op : SeqNumberType) (keys : List String)
    (hne : keys ≠ []) (i : PointIdType) (s : Segment) :
    ((deletePayloadMutator op keys i s).2).version = op := by
  cases keys with
  | nil => exact absurd rfl hne
  | cons k tl =>
    show ((List.foldl (fun acc key => (acc.1 && true, acc.2.delete_payload_raw op i key))
      (true && true, s.delete_payload_raw op i k) tl).2).version = op
    exact deletePayload_fold_version op i tl _ _ rfl

/-! ## Post-state of apply_points: fresh surviving segments hold no ids -/

theorem applyIds_version_establish (op : SeqNumberType)
    (f : PointIdType → Segment → Bool × Segment)
    (hverEq : ∀ i s, ((f i s).2).version = op)
    (hfw : ∀ i s, s.has_point i = true → ∀ j, j ≠ i →
      ((f i s).2).has_point j = s.has_point j)
    (ids : List PointIdType) (seg : Segment) (t : List PointIdType)
    (x : PointIdType) (hx : x ∈ ids) (hp : seg.has_point x = true) :
    ((applyIdsToSegment f ids seg t).2.1).version = op :=
  applyIds_establish f (fun s => s.version = op) x hfw
    (fun i s _ => hverEq i s) (fun s _ => hverEq x s) ids seg t hx hp

theorem apply_points_post_no_ids (op : SeqNumberType) (ids : List PointIdType)
    (f : PointIdType → Segment → Bool × Segment)
    (hverEq : ∀ i s, ((f i s).2).version = op)
    (hfw : ∀ i s, s.has_point i = true → ∀ j, j ≠ i →
      ((f i s).2).has_point j = s.has_point j)
    (holder : List Segment) :
    ∀ seg' ∈ (SegmentHolder.apply_points op ids f holder).2.1, seg'.version < op →
      ∀ id ∈ ids, seg'.has_point id = false := by
  intro seg' hmem hfresh id hid
  obtain ⟨n, hn⟩ := List.get?_of_mem hmem
  rw [apply_points_get] at hn
  cases hg : holder.get? n with
  | none => rw [hg] at hn; cases hn
  | some seg =>
    rw [hg, Option.map_some'] at hn
    replace hn := Option.some.inj hn
    by_cases hv : seg.version < op
    · rw [if_pos hv] at hn
      by_cases hcon : seg.has_point id = true
      · exfalso
        have := applyIds_version_establish op f hverEq hfw ids seg [] id hid hcon
        rw [hn] at this
        rw [this] at hfresh
        exact absurd hfresh (lt_irrefl op)
      · have hnone : ∀ i ∈ ids, seg.has_point i = false → True := fun _ _ _ => trivial
        by_cases hany : ∃ i ∈ ids, seg.has_point i = true
        · exfalso
          obtain ⟨i, hi, hci⟩ := hany
          have := applyIds_version_establish op f hverEq hfw ids seg [] i hi hci
          rw [hn] at this
          rw [this] at hfresh
          exact absurd hfresh (lt_irrefl op)
        · push_neg at hany
          have hall : ∀ i ∈ ids, seg.has_point i = false := by
            intro i hi
            have := hany i hi
            simpa using this
          rw [applyIds_no_invoke f ids seg [] hall] at hn
          rw [← hn]
          exact hall id hid
    · rw [if_neg hv] at hn
      rw [← hn] at hfresh
      exact absurd hfresh hv

theorem alookup_filter_key_ne {α : Type} (i j : PointIdType) (h : j ≠ i) :
    ∀ (m : List (PointIdType × α)),
      alookup j (m.filter (fun p => decide (p.1 ≠ i))) = alookup j m := by
  intro m
  induction m with
  | nil => rfl
  | cons p rest ih =>
    obtain ⟨pk, pv⟩ := p
    by_cases hp : pk = i
    · rw [List.filter_cons_of_neg (by simpa using hp)]
      show _ = if j = pk then some pv else alookup j rest
      rw [if_neg (fun hj => h (hj.trans hp)), ih]
    · rw [List.filter_cons_of_pos (by simpa using hp)]
      show (if j = pk then some pv
          else alookup j (rest.filter (fun p => decide (p.1 ≠ i)))) =
        if j = pk then some pv else alookup j rest
      by_cases hj : j = pk
      · rw [if_pos hj, if_pos hj]
      · rw [if_neg hj, if_neg hj, ih]

theorem has_point_delete_raw_other (op : SeqNumberType) (i : PointIdType) (s : Segment)
    (j : PointIdType) (h : j ≠ i) :
    (s.delete_point_raw op i).has_point j = s.has_point j := by
  unfold Segment.delete_point_raw Segment.has_point
  rw [alookup_filter_key_ne i j h]

theorem foldl_upsert_cases (op : SeqNumberType) (g : PointIdType → VectorType) :
    ∀ (l : List PointIdType) (s : Segment),
      l.foldl (fun s i => s.upsert_point_raw op i (g i)) s = s ∨
        (l.foldl (fun s i => s.upsert_point_raw op i (g i)) s).version = op := by
  intro l
  induction l with
  | nil => intro s; exact Or.inl rfl
  | cons i rest ih =>
    intro s
    rw [show List.foldl (fun s i => s.upsert_point_raw op i (g i)) s (i :: rest) =
      List.foldl (fun s i => s.upsert_point_raw op i (g i))
        (s.upsert_point_raw op i (g i)) rest from rfl]
    rcases ih (s.upsert_point_raw op i (g i)) with heq | hop
    · rw [heq]
      exact Or.inr rfl
    · exact Or.inr hop

theorem residualUpsert_stale (op : SeqNumberType) (resid : List PointIdType)
    (pm : List (PointIdType × VectorType)) (s : Segment) (h : ¬ s.version < op) :
    residualUpsert op resid pm s = s := by
  unfold residualUpsert
  rw [if_neg h]

theorem residualUpsert_cases (op : SeqNumberType) (resid : List PointIdType)
    (pm : List (PointIdType × VectorType)) (s : Segment) :
    residualUpsert op resid pm s = s ∨ (residualUpsert op resid pm s).version = op := by
  unfold residualUpsert
  by_cases hv : s.version < op
  · rw [if_pos hv]
    exact foldl_upsert_cases op _ resid s
  · rw [if_neg hv]
    exact Or.inl rfl

theorem apply_segments_post_stale (op : SeqNumberType) (f : Segment → Bool × Segment)
    (hv : ∀ s, ((f s).2).version = op) (holder : List Segment) :
    ∀ seg' ∈ (SegmentHolder.apply_segments op f holder).2, ¬ seg'.version < op := by
  intro seg' hmem
  obtain ⟨n, hn⟩ := List.get?_of_mem hmem
  rw [apply_segments_get] at hn
  cases hg : holder.get? n with
  | none => rw [hg] at hn; cases hn
  | some seg =>
    rw [hg, Option.map_some'] at hn
    replace hn := Option.some.inj hn
    by_cases hvr : seg.version < op
    · rw [if_pos hvr] at hn
      rw [← hn, hv seg]
      exact lt_irrefl op
    · rw [if_neg hvr] at hn
      rw [← hn]
      exact hvr

theorem delete_points_state (op : SeqNumberType) (ids : List PointIdType)
    (holder : List Segment) :
    (SimpleSegmentUpdater.delete_points op ids holder).2 =
      (SegmentHolder.apply_points op ids
        (fun id seg => (true, seg.delete_point_raw op id)) holder).2.1 := rfl

theorem wipe_payload_state (op : SeqNumberType) (holder : List Segment) :
    (SimpleSegmentUpdater.wipe_payload op holder).2 =
      (SegmentHolder.apply_segments op
        (fun seg => (true, seg.wipe_payload_raw op)) holder).2 := rfl

theorem upsert_points_apply_eq_cons (op : SeqNumberType) (ids : List PointIdType)
    (vectors : List VectorType) (holder : List Segment) (n : Nat) (seg : Segment)
    (rest : List Segment) (touched : List PointIdType)
    (h : SegmentHolder.apply_points op ids (upsertMutator op (ids.zip vectors)) holder =
      (n, seg :: rest, touched)) :
    SimpleSegmentUpdater.upsert_points op ids vectors holder =
      (.ok n, residualUpsert op (ids.filter (fun x => decide (x ∉ touched)))
        (ids.zip vectors) seg :: rest) := by
  unfold SimpleSegmentUpdater.upsert_points
  rw [h]

/-! ## Update-level version semantics -/

theorem update_stale_preserved (op_num : SeqNumberType)
    (operation : CollectionUpdateOperations) (holder : List Segment) :
    ∀ (i : Nat) (seg : Segment), holder.get? i = some seg → op_num ≤ seg.version →
      (SimpleSegmentUpdater.update op_num operation holder).2.get? i = some seg := by
  intro i seg hget hstale
  have hnv : ¬ seg.version < op_num := not_lt.mpr hstale
  cases operation with
  | PointOperation pop =>
    cases pop with
    | UpsertPoints ids vecs =>
      show (SimpleSegmentUpdater.upsert_points op_num ids vecs holder).2.get? i = some seg
      cases holder with
      | nil => simp at hget
      | cons seg0 rest0 =>
        rw [upsert_points_cons]
        cases i with
        | zero =>
          simp only [List.get?_cons_zero, Option.some.injEq] at hget
          subst hget
          show some (residualUpsert _ _ _ _) = some seg0
          rw [if_neg hnv]
          unfold residualUpsert
          rw [if_neg hnv]
        | succ n =>
          simp only [List.get?_cons_succ] at hget ⊢
          rw [apply_points_get, hget, Option.map_some', if_neg hnv]
    | DeletePoints ids =>
      show (SimpleSegmentUpdater.delete_points op_num ids holder).2.get? i = some seg
      rw [delete_points_state, apply_points_get, hget, Option.map_some', if_neg hnv]
  | PayloadOperation pop =>
    cases pop with
    | SetPayload payload points =>
      show (SimpleSegmentUpdater.set_payload op_num payload points holder).2.get? i = some seg
      rw [set_payload_state, apply_points_get, hget, Option.map_some', if_neg hnv]
    | DeletePayload keys points =>
      show (SimpleSegmentUpdater.delete_payload op_num points keys holder).2.get? i = some seg
      rw [delete_payload_state, apply_points_get, hget, Option.map_some', if_neg hnv]
    | ClearPayload points =>
      show (SimpleSegmentUpdater.clear_payload op_num points holder).2.get? i = some seg
      rw [clear_payload_state, apply_points_get, hget, Option.map_some', if_neg hnv]
    | WipePayload =>
      show (SimpleSegmentUpdater.wipe_payload op_num holder).2.get? i = some seg
      rw [wipe_payload_state, apply_segments_get, hget, Option.map_some', if_neg hnv]

theorem update_changed_version (op_num : SeqNumberType)
    (operation : CollectionUpdateOperations) (holder : List Segment) :
    ∀ (i : Nat) (seg seg' : Segment), holder.get? i = some seg →
      (SimpleSegmentUpdater.update op_num operation holder).2.get? i = some seg' →
      seg' = seg ∨ op_num ≤ seg'.version := by
  have happly : ∀ (ids : List PointIdType) (f : PointIdType → Segment → Bool × Segment),
      (∀ j s, (f j s).2 = s ∨ ((f j s).2).version = op_num) →
      ∀ (i : Nat) (seg seg' : Segment), holder.get? i = some seg →
        (SegmentHolder.apply_points op_num ids f holder).2.1.get? i = some seg' →
        seg' = seg ∨ op_num ≤ seg'.version := by
    intro ids f hver i seg seg' hget h2
    rw [apply_points_get, hget, Option.map_some'] at h2
    replace h2 := Option.some.inj h2
    by_cases hv : seg.version < op_num
    · rw [if_pos hv] at h2
      rcases applyIds_cases op_num f hver ids seg [] with heq | hop
      · rw [h2] at heq
        exact Or.inl heq
      · rw [h2] at hop
        exact Or.inr (le_of_eq hop.symm)
    · rw [if_neg hv] at h2
      exact Or.inl h2.symm
  intro i seg seg' hget h2
  cases operation with
  | PointOperation pop =>
    cases pop with
    | UpsertPoints ids vecs =>
      replace h2 : (SimpleSegmentUpdater.upsert_points op_num ids vecs holder).2.get? i =
        some seg' := h2
      cases holder with
      | nil => simp at hget
      | cons seg0 rest0 =>
        rw [upsert_points_cons] at h2
        cases i with
        | zero =>
          simp only [List.get?_cons_zero, Option.some.injEq] at hget h2
          subst hget
          have hC : (if seg0.version < op_num
              then (applyIdsToSegment (upsertMutator op_num (ids.zip vecs)) ids seg0 []).2.1
              else seg0) = seg0 ∨
            (if seg0.version < op_num
              then (applyIdsToSegment (upsertMutator op_num (ids.zip vecs)) ids seg0 []).2.1
              else seg0).version = op_num := by
            by_cases hv : seg0.version < op_num
            · rw [if_pos hv]
              exact applyIds_cases op_num (upsertMutator op_num (ids.zip vecs))
                (fun j s => Or.inr rfl) ids seg0 []
            · rw [if_neg hv]
              exact Or.inl rfl
          rcases residualUpsert_cases op_num
              (ids.filter (fun x => decide (x ∉ (SegmentHolder.apply_points op_num ids
                (upsertMutator op_num (ids.zip vecs)) (seg0 :: rest0)).2.2)))
              (ids.zip vecs)
              (if seg0.version < op_num
                then (applyIdsToSegment (upsertMutator op_num (ids.zip vecs)) ids seg0 []).2.1
                else seg0) with hres | hres
          · rw [h2] at hres
            rcases hC with hC1 | hC2
            · exact Or.inl (hres.trans hC1)
            · exact Or.inr (le_of_eq (by rw [hres, hC2]))
          · rw [h2] at hres
            exact Or.inr (le_of_eq hres.symm)
        | succ n =>
          simp only [List.get?_cons_succ] at hget h2
          rw [apply_points_get, hget, Option.map_some'] at h2
          replace h2 := Option.some.inj h2
          by_cases hv : seg.version < op_num
          · rw [if_pos hv] at h2
            rcases applyIds_cases op_num (upsertMutator op_num (ids.zip vecs))
                (fun j s => Or.inr rfl) ids seg [] with heq | hop
            · rw [h2] at heq
              exact Or.inl heq
            · rw [h2] at hop
              exact Or.inr (le_of_eq hop.symm)
          · rw [if_neg hv] at h2
            exact Or.inl h2.symm
    | DeletePoints ids =>
      replace h2 : (SimpleSegmentUpdater.delete_points op_num ids holder).2.get? i =
        some seg' := h2
      rw [delete_points_state] at h2
      exact happly ids (fun id seg => (true, seg.delete_point_raw op_num id))
        (fun j s => Or.inr rfl) i seg seg' hget h2
  | PayloadOperation pop =>
    cases pop with
    | SetPayload payload points =>
      replace h2 : (SimpleSegmentUpdater.set_payload op_num payload points holder).2.get? i =
        some seg' := h2
      rw [set_payload_state] at h2
      exact happly points _ (fun j s => setPayloadMutator_cases op_num payload j s)
        i seg seg' hget h2
    | DeletePayload keys points =>
      replace h2 : (SimpleSegmentUpdater.delete_payload op_num points keys holder).2.get? i =
        some seg' := h2
      rw [delete_payload_state] at h2
      exact happly points _ (fun j s => deletePayloadMutator_cases op_num keys j s)
        i seg seg' hget h2
    | ClearPayload points =>
      replace h2 : (SimpleSegmentUpdater.clear_payload op_num points holder).2.get? i =
        some seg' := h2
      rw [clear_payload_state] at h2
      exact happly points (fun id seg => (true, seg.clear_payload_raw op_num id))
        (fun j s => Or.inr rfl) i seg seg' hget h2
    | WipePayload =>
      replace h2 : (SimpleSegmentUpdater.wipe_payload op_num holder).2.get? i =
        some seg' := h2
      rw [wipe_payload_state, apply_segments_get, hget, Option.map_some'] at h2
      replace h2 := Option.some.inj h2
      by_cases hv : seg.version < op_num
      · rw [if_pos hv] at h2
        exact Or.inr (le_of_eq (by rw [← h2]; rfl))
      · rw [if_neg hv] at h2
        exact Or.inl h2.symm

theorem update_replay (op_num : SeqNumberType)
    (operation : CollectionUpdateOperations) (holder : List Segment)
    (hsafe : ∀ (uids : List PointIdType) (uvecs : List VectorType),
      operation = .PointOperation (.UpsertPoints uids uvecs) →
      ∀ (h1 : Segment) (t1 : List Segment),
        (SimpleSegmentUpdater.update op_num operation holder).2 = h1 :: t1 →
        op_num ≤ h1.version) :
    (SimpleSegmentUpdater.update op_num operation
      ((SimpleSegmentUpdater.update op_num operation holder).2)).2 =
      (SimpleSegmentUpdater.update op_num operation holder).2 := by
  cases operation with
  | PointOperation pop =>
    cases pop with
    | UpsertPoints ids vecs =>
      show (SimpleSegmentUpdater.upsert_points op_num ids vecs
          ((SimpleSegmentUpdater.upsert_points op_num ids vecs holder).2)).2 =
        (SimpleSegmentUpdater.upsert_points op_num ids vecs holder).2
      cases holder with
      | nil => rfl
      | cons seg0 rest0 =>
        have hcons : (SimpleSegmentUpdater.upsert_points op_num ids vecs
            (seg0 :: rest0)).2 =
          residualUpsert op_num
            (ids.filter (fun x => decide (x ∉ (SegmentHolder.apply_points op_num ids
              (upsertMutator op_num (ids.zip vecs)) (seg0 :: rest0)).2.2)))
            (ids.zip vecs)
            (if seg0.version < op_num
              then (applyIdsToSegment (upsertMutator op_num (ids.zip vecs)) ids seg0 []).2.1
              else seg0) ::
          (SegmentHolder.apply_points op_num ids
            (upsertMutator op_num (ids.zip vecs)) rest0).2.1 := by
          rw [upsert_points_cons]
        have hst := hsafe ids vecs rfl _ _ hcons
        rw [hcons]
        have hpost : ∀ seg' ∈ (residualUpsert op_num
            (ids.filter (fun x => decide (x ∉ (SegmentHolder.apply_points op_num ids
              (upsertMutator op_num (ids.zip vecs)) (seg0 :: rest0)).2.2)))
            (ids.zip vecs)
            (if seg0.version < op_num
              then (applyIdsToSegment (upsertMutator op_num (ids.zip vecs)) ids seg0 []).2.1
              else seg0) ::
          (SegmentHolder.apply_points op_num ids
            (upsertMutator op_num (ids.zip vecs)) rest0).2.1),
            seg'.version < op_num → ∀ id ∈ ids, seg'.has_point id = false := by
          intro seg' hmem hfresh id hid
          rcases List.mem_cons.mp hmem with rfl | hmem2
          · exact absurd hfresh (not_lt.mpr hst)
          · exact apply_points_post_no_ids op_num ids _
              (fun j s => upsertMutator_version op_num (ids.zip vecs) j s)
              (fun j s hc k _ => upsertMutator_has_point_stable op_num (ids.zip vecs) j s hc k)
              rest0 seg' hmem2 hfresh id hid
        have hA' := apply_points_noop op_num ids (upsertMutator op_num (ids.zip vecs)) _ hpost
        rw [upsert_points_apply_eq_cons op_num ids vecs _ 0 _ _ [] hA']
        rw [residualUpsert_stale op_num _ _ _ (not_lt.mpr hst)]
    | DeletePoints ids =>
      show (SimpleSegmentUpdater.delete_points op_num ids
          ((SimpleSegmentUpdater.delete_points op_num ids holder).2)).2 =
        (SimpleSegmentUpdater.delete_points op_num ids holder).2
      rw [delete_points_state, delete_points_state,
        apply_points_noop op_num ids _ _
          (apply_points_post_no_ids op_num ids _
            (fun j s => rfl)
            (fun j s _ k hk => has_point_delete_raw_other op_num j s k hk) holder)]
  | PayloadOperation pop =>
    cases pop with
    | SetPayload payload points =>
      show (SimpleSegmentUpdater.set_payload op_num payload points
          ((SimpleSegmentUpdater.set_payload op_num payload points holder).2)).2 =
        (SimpleSegmentUpdater.set_payload op_num payload points holder).2
      by_cases hpe : payload = []
      · subst hpe
        rw [set_payload_state, set_payload_state,
          apply_points_state_id op_num points _ (fun j s => rfl),
          apply_points_state_id op_num points _ (fun j s => rfl)]
      · rw [set_payload_state, set_payload_state,
          apply_points_noop op_num points _ _
            (apply_points_post_no_ids op_num points _
              (fun j s => setPayloadMutator_version_ne_nil op_num payload hpe j s)
              (fun j s _ k _ => has_point_setPayloadMutator op_num payload j s k) holder)]
    | DeletePayload keys points =>
      show (SimpleSegmentUpdater.delete_payload op_num points keys
          ((SimpleSegmentUpdater.delete_payload op_num points keys holder).2)).2 =
        (SimpleSegmentUpdater.delete_payload op_num points keys holder).2
      by_cases hke : keys = []
      · subst hke
        rw [delete_payload_state, delete_payload_state,
          apply_points_state_id op_num points _ (fun j s => rfl),
          apply_points_state_id op_num points _ (fun j s => rfl)]
      · rw [delete_payload_state, delete_payload_state,
          apply_points_noop op_num points _ _
            (apply_points_post_no_ids op_num points _
              (fun j s => deletePayloadMutator_version_ne_nil op_num keys hke j s)
              (fun j s _ k _ => has_point_deletePayloadMutator op_num keys j s k) holder)]
    | ClearPayload points =>
      show (SimpleSegmentUpdater.clear_payload op_num points
          ((SimpleSegmentUpdater.clear_payload op_num points holder).2)).2 =
        (SimpleSegmentUpdater.clear_payload op_num points holder).2
      rw [clear_payload_state, clear_payload_state,
        apply_points_noop op_num points _ _
          (apply_points_post_no_ids op_num points _
            (fun j s => rfl)
            (fun j s _ k _ => has_point_clear_payload_raw op_num j s k) holder)]
    | WipePayload =>
      show (SimpleSegmentUpdater.wipe_payload op_num
          ((SimpleSegmentUpdater.wipe_payload op_num holder).2)).2 =
        (SimpleSegmentUpdater.wipe_payload op_num holder).2
      rw [wipe_payload_state, wipe_payload_state,
        apply_segments_stale_noop op_num _ _
          (apply_segments_post_stale op_num _ (fun s => rfl) holder)]

/-- C5 (amended): for every operation with sequence number `op` — (a) no
segment whose `version() >= op` is changed; (b) segments with
`version() >= op` contribute neither to the returned count nor to the touched
set of the `apply_points` fan-out (no-op calls are not counted as touches);
(c) any segment changed by the operation ends with `version() >= op`;
(d) replaying the operation leaves the collection unchanged — for Delete and
the payload operations unconditionally, and for Upsert whenever the holder
head (the random segment) has reached `op` after the first application; a
replayed Upsert may otherwise re-insert its ids into the still-fresh random
segment. -/
theorem update_version_discipline (op_num : SeqNumberType)
    (operation : CollectionUpdateOperations) (holder : List Segment) :
    (∀ (i : Nat) (seg : Segment), holder.get? i = some seg → op_num ≤ seg.version →
      (SimpleSegmentUpdater.update op_num operation holder).2.get? i = some seg) ∧
    (∀ (ids : List PointIdType) (f : PointIdType → Segment → Bool × Segment),
      (SegmentHolder.apply_points op_num ids f
        (holder.filter (fun s => decide (s.version < op_num)))).1 =
        (SegmentHolder.apply_points op_num ids f holder).1 ∧
      (SegmentHolder.apply_points op_num ids f
        (holder.filter (fun s => decide (s.version < op_num)))).2.2 =
        (SegmentHolder.apply_points op_num ids f holder).2.2) ∧
    (∀ (i : Nat) (seg seg' : Segment), holder.get? i = some seg →
      (SimpleSegmentUpdater.update op_num operation holder).2.get? i = some seg' →
      seg' = seg ∨ op_num ≤ seg'.version) ∧
    ((∀ (uids : List PointIdType) (uvecs : List VectorType),
        operation = .PointOperation (.UpsertPoints uids uvecs) →
        ∀ (h1 : Segment) (t1 : List Segment),
          (SimpleSegmentUpdater.update op_num operation holder).2 = h1 :: t1 →
          op_num ≤ h1.version) →
      (SimpleSegmentUpdater.update op_num operation
        ((SimpleSegmentUpdater.update op_num operation holder).2)).2 =
        (SimpleSegmentUpdater.update op_num operation holder).2) :=
  ⟨update_stale_preserved op_num operation holder,
   fun ids f => apply_points_skip_stale op_num ids f holder,
   update_changed_version op_num operation holder,
   fun hsafe => update_replay op_num operation holder hsafe⟩

/-- C5 counterexample: replaying an Upsert is not a no-op. Holder: a fresh
empty segment (the random segment) followed by a fresh segment holding point
7. Applying `Upsert{[7],[[1]]}` at op 5 twice differs from applying it once —
the replay re-inserts 7 into the still-fresh head segment. -/
theorem update_replay_changes_collection :
    (SimpleSegmentUpdater.update 5
        (.PointOperation (.UpsertPoints [7] [[1]]))
        ((SimpleSegmentUpdater.update 5 (.PointOperation (.UpsertPoints [7] [[1]]))
          [segB0, segA7]).2)).2 ≠
      (SimpleSegmentUpdater.update 5 (.PointOperation (.UpsertPoints [7] [[1]]))
        [segB0, segA7]).2 := by
  decide

/-- Witness for C5 at concrete inputs: a stale segment is untouched by an
upsert at a lower op; a delete at op 60 is idempotent under replay. -/
theorem update_version_discipline_witness :
    ((SimpleSegmentUpdater.update 5 (.PointOperation (.UpsertPoints [9] [[1]]))
        [staleSeg]).2.get? 0 = some staleSeg) ∧
    ((SimpleSegmentUpdater.update 60 (.PointOperation (.DeletePoints [7]))
        ((SimpleSegmentUpdater.update 60 (.PointOperation (.DeletePoints [7]))
          [segB0, segA7]).2)).2 =
      (SimpleSegmentUpdater.update 60 (.PointOperation (.DeletePoints [7]))
        [segB0, segA7]).2) := by
  constructor
  · exact (update_version_discipline 5 (.PointOperation (.UpsertPoints [9] [[1]]))
      [staleSeg]).1 0 staleSeg rfl (by decide)
  · exact (update_version_discipline 60 (.PointOperation (.DeletePoints [7]))
      [segB0, segA7]).2.2.2
      (fun uids uvecs h => by simp at h)

/-! ## Search: dedup and top-k lemmas -/

theorem tryJoinAll_map_search (segments : List SegmentView) (vector : VectorType)
    (top : Nat) (hlock : ∀ s ∈ segments, s.lockOk = true) :
    tryJoinAll (segments.map (fun s => search_in_segment s vector top)) =
      .ok (segments.map (fun s => s.searchFn vector top)) := by
  induction segments with
  | nil => rfl
  | cons s rest ih =>
    have hs : search_in_segment s vector top = .ok (s.searchFn vector top) := by
      unfold search_in_segment
      rw [if_pos (hlock s (List.mem_cons_self _ _))]
    show tryJoinAll (search_in_segment s vector top :: _) = _
    rw [hs]
    unfold tryJoinAll
    rw [ih (fun s' hs' => hlock s' (List.mem_cons_of_mem _ hs'))]
    rfl

theorem dedupFirst_sublist : ∀ (l : List ScoredPoint) (seen : List PointIdType),
    List.Sublist (dedupFirst seen l) l := by
  intro l
  induction l with
  | nil => intro seen; exact List.Sublist.refl _
  | cons p rest ih =>
    intro seen
    unfold dedupFirst
    by_cases h : p.idx ∈ seen
    · rw [if_pos h]
      exact (ih (p.idx :: seen)).cons p
    · rw [if_neg h]
      exact (ih (p.idx :: seen)).cons₂ p

theorem dedupFirst_not_seen : ∀ (l : List ScoredPoint) (seen : List PointIdType),
    ∀ p ∈ dedupFirst seen l, p.idx ∉ seen := by
  intro l
  induction l with
  | nil => intro seen p hp; simp [dedupFirst] at hp
  | cons q rest ih =>
    intro seen p hp
    unfold dedupFirst at hp
    by_cases h : q.idx ∈ seen
    · rw [if_pos h] at hp
      intro hmem
      exact ih (q.idx :: seen) p hp (List.mem_cons_of_mem _ hmem)
    · rw [if_neg h] at hp
      rcases List.mem_cons.mp hp with rfl | hp2
      · exact h
      · intro hmem
        exact ih (q.idx :: seen) p hp2 (List.mem_cons_of_mem _ hmem)

theorem dedupFirst_idx_nodup : ∀ (l : List ScoredPoint) (seen : List PointIdType),
    ((dedupFirst seen l).map ScoredPoint.idx).Nodup := by
  intro l
  induction l with
  | nil => intro seen; simp [dedupFirst]
  | cons q rest ih =>
    intro seen
    unfold dedupFirst
    by_cases h : q.idx ∈ seen
    · rw [if_pos h]
      exact ih (q.idx :: seen)
    · rw [if_neg h]
      rw [List.map_cons, List.nodup_cons]
      refine ⟨?_, ih (q.idx :: seen)⟩
      intro hmem
      obtain ⟨p, hp, hpe⟩ := List.mem_map.mp hmem
      have := dedupFirst_not_seen rest (q.idx :: seen) p hp
      exact this (hpe ▸ List.mem_cons_self _ _)

theorem dedupFirst_first_occ : ∀ (l : List ScoredPoint) (seen : List PointIdType),
    ∀ p ∈ dedupFirst seen l, ∃ pre suf, l = pre ++ p :: suf ∧
      p.idx ∉ pre.map ScoredPoint.idx ∧ p.idx ∉ seen := by
  intro l
  induction l with
  | nil => intro seen p hp; simp [dedupFirst] at hp
  | cons q rest ih =>
    intro seen p hp
    unfold dedupFirst at hp
    by_cases h : q.idx ∈ seen
    · rw [if_pos h] at hp
      obtain ⟨pre, suf, heq, hpre, hseen⟩ := ih (q.idx :: seen) p hp
      have hne : p.idx ≠ q.idx := fun hh => hseen (hh ▸ List.mem_cons_self _ _)
      refine ⟨q :: pre, suf, by rw [heq]; rfl, ?_, ?_⟩
      · rw [List.map_cons]
        intro hmem
        rcases List.mem_cons.mp hmem with hh | hh
        · exact hne hh
        · exact hpre hh
      · exact fun hmem => hseen (List.mem_cons_of_mem _ hmem)
    · rw [if_neg h] at hp
      rcases List.mem_cons.mp hp with rfl | hp2
      · exact ⟨[], rest, rfl, by simp, h⟩
      · obtain ⟨pre, suf, heq, hpre, hseen⟩ := ih (q.idx :: seen) p hp2
        have hne : p.idx ≠ q.idx := fun hh => hseen (hh ▸ List.mem_cons_self _ _)
        refine ⟨q :: pre, suf, by rw [heq]; rfl, ?_, ?_⟩
        · rw [List.map_cons]
          intro hmem
          rcases List.mem_cons.mp hmem with hh | hh
          · exact hne hh
          · exact hpre hh
        · exact fun hmem => hseen (List.mem_cons_of_mem _ hmem)

theorem scoreBetter_total (d : Distance) : ∀ a b : ScoredPoint,
    scoreBetter d a b ∨ scoreBetter d b a := by
  intro a b
  cases d
  · exact Int.le_total b.score a.score
  · exact Int.le_total b.score a.score
  · exact Int.le_total a.score b.score

theorem scoreBetter_trans (d : Distance) : ∀ a b c : ScoredPoint,
    scoreBetter d a b → scoreBetter d b c → scoreBetter d a c := by
  intro a b c hab hbc
  cases d
  · exact le_trans hbc hab
  · exact le_trans hbc hab
  · exact le_trans hab hbc

/-- C1: for every search over segments whose read locks are acquired, the
search returns a result list of length at most `top`, with pairwise-distinct
point ids, where every returned entry is the *first* occurrence of its id in
the concatenation of the per-segment result lists, and the returned entries
together with the left-out remainder form exactly the deduplicated union, with
every returned entry at least as good as every left-out one under the
configured distance's ordering (higher scores win for Dot/Cosine, lower for
Euclid). -/
theorem search_dedup_topk (segments : List SegmentView) (vector : VectorType)
    (top : Nat) (d : Distance) (hlock : ∀ s ∈ segments, s.lockOk = true) :
    ∃ r, SimpleSegmentSearcher.search segments vector top d = some r ∧
      r.length ≤ top ∧
      (r.map ScoredPoint.idx).Nodup ∧
      (∀ p ∈ r, ∃ pre suf,
        (segments.map (fun s => s.searchFn vector top)).flatten = pre ++ p :: suf ∧
          p.idx ∉ pre.map ScoredPoint.idx) ∧
      (∃ rest, (r ++ rest).Perm
          (dedupFirst [] (segments.map (fun s => s.searchFn vector top)).flatten) ∧
        ∀ p ∈ r, ∀ q ∈ rest, scoreBetter d p q) := by
  haveI httl : IsTotal ScoredPoint (scoreBetter d) := ⟨scoreBetter_total d⟩
  haveI htr : IsTrans ScoredPoint (scoreBetter d) := ⟨scoreBetter_trans d⟩
  have hgoal : SimpleSegmentSearcher.search segments vector top d =
      some (peek_top_scores_iterable
        (dedupFirst [] (segments.map (fun s => s.searchFn vector top)).flatten) top d) := by
    unfold SimpleSegmentSearcher.search
    rw [tryJoinAll_map_search segments vector top hlock]
  refine ⟨_, hgoal, ?_, ?_, ?_, ?_⟩
  · exact List.length_take_le top _
  · have hperm : ((dedupFirst [] (segments.map
        (fun s => s.searchFn vector top)).flatten).insertionSort (scoreBetter d)).Perm
        (dedupFirst [] (segments.map (fun s => s.searchFn vector top)).flatten) :=
      List.perm_insertionSort _ _
    have hnd := dedupFirst_idx_nodup
      ((segments.map (fun s => s.searchFn vector top)).flatten) []
    have hsortednd := ((hperm.map ScoredPoint.idx).nodup_iff).mpr hnd
    exact hsortednd.sublist ((List.take_sublist top _).map ScoredPoint.idx)
  · intro p hp
    have hp2 : p ∈ (dedupFirst [] (segments.map
        (fun s => s.searchFn vector top)).flatten).insertionSort (scoreBetter d) :=
      List.mem_of_mem_take hp
    have hp3 : p ∈ dedupFirst [] (segments.map (fun s => s.searchFn vector top)).flatten :=
      (List.perm_insertionSort _ _).mem_iff.mp hp2
    obtain ⟨pre, suf, heq, hpre, _⟩ := dedupFirst_first_occ _ [] p hp3
    exact ⟨pre, suf, heq, hpre⟩
  · refine ⟨((dedupFirst [] (segments.map
        (fun s => s.searchFn vector top)).flatten).insertionSort (scoreBetter d)).drop top,
      ?_, ?_⟩
    · unfold peek_top_scores_iterable
      rw [List.take_append_drop]
      exact List.perm_insertionSort _ _
    · intro p hp q hq
      exact (List.sorted_insertionSort (scoreBetter d) _).rel_of_mem_take_of_mem_drop hp hq

/-- Witness for C1 at a concrete two-segment holder with a duplicated id. -/
theorem search_dedup_topk_witness :
    ∃ r, SimpleSegmentSearcher.search [viewA, viewB] [1] 2 Distance.Dot = some r ∧
      r.length ≤ 2 ∧
      (r.map ScoredPoint.idx).Nodup ∧
      (∀ p ∈ r, ∃ pre suf,
        (([viewA, viewB].map (fun s => s.searchFn [1] 2)).flatten = pre ++ p :: suf ∧
          p.idx ∉ pre.map ScoredPoint.idx)) ∧
      (∃ rest, (r ++ rest).Perm
          (dedupFirst [] (([viewA, viewB].map (fun s => s.searchFn [1] 2)).flatten)) ∧
        ∀ p ∈ r, ∀ q ∈ rest, scoreBetter Distance.Dot p q) := by
  refine search_dedup_topk [viewA, viewB] [1] 2 Distance.Dot ?_
  intro s hs
  rcases List.mem_cons.mp hs with rfl | hs2
  · rfl
  · rcases List.mem_cons.mp hs2 with rfl | hs3
    · rfl
    · simp at hs3

/-! ## Retrieve: visitor and scan lemmas -/

theorem buildRecord_ok (wp wv : Bool) (id : PointIdType) (s : SegmentView)
    (hpl : ∃ pl, s.payloadFn id = .ok pl) (hvec : ∃ vec, s.vectorFn id = .ok vec) :
    ∃ rec, buildRecord wp wv id s = .ok rec ∧ rec.id = id := by
  obtain ⟨pl, hpl⟩ := hpl
  obtain ⟨vec, hvec⟩ := hvec
  unfold buildRecord
  cases wp <;> cases wv <;> simp [hpl, hvec, Except.map]

theorem alookup_mem {κ : Type} [DecidableEq κ] {α : Type} (k : κ) (x : α) :
    ∀ (m : List (κ × α)), alookup k m = some x → (k, x) ∈ m := by
  intro m
  induction m with
  | nil => intro h; cases h
  | cons p rest ih =>
    intro h
    unfold alookup at h
    by_cases hk : k = p.1
    · rw [if_pos hk] at h
      have hkx : (k, x) = p := by
        obtain ⟨p1, p2⟩ := p
        simp only at hk h
        rw [hk, (Option.some.inj h).symm]
      rw [hkx]
      exact List.mem_cons_self _ _
    · rw [if_neg hk] at h
      exact List.mem_cons_of_mem _ (ih h)

theorem mem_alookup_of_nodup {κ : Type} [DecidableEq κ] {α : Type} (k : κ) (x : α) :
    ∀ (m : List (κ × α)), (m.map Prod.fst).Nodup → (k, x) ∈ m → alookup k m = some x := by
  intro m
  induction m with
  | nil => intro _ h; cases h
  | cons p rest ih =>
    intro hnd h
    rw [List.map_cons, List.nodup_cons] at hnd
    rcases List.mem_cons.mp h with heq | hmem
    · rw [← heq]
      unfold alookup
      rw [if_pos rfl]
    · unfold alookup
      by_cases hk : k = p.1
      · exfalso
        apply hnd.1
        rw [← hk]
        exact List.mem_map.mpr ⟨(k, x), hmem, rfl⟩
      · rw [if_neg hk]
        exact ih hnd.2 hmem

theorem mem_aset {κ : Type} [DecidableEq κ] {α : Type} (k : κ) (v : α) :
    ∀ (m : List (κ × α)) (q : κ × α), q ∈ aset k v m → q ∈ m ∨ q = (k, v) := by
  intro m
  induction m with
  | nil =>
    intro q hq
    right
    simpa [aset] using hq
  | cons p rest ih =>
    intro q hq
    unfold aset at hq
    by_cases hk : k = p.1
    · rw [if_pos hk] at hq
      rcases List.mem_cons.mp hq with rfl | hmm
      · right; rfl
      · left; exact List.mem_cons_of_mem _ hmm
    · rw [if_neg hk] at hq
      rcases List.mem_cons.mp hq with rfl | hmm
      · left; exact List.mem_cons_self _ _
      · rcases ih q hmm with h2 | h2
        · left; exact List.mem_cons_of_mem _ h2
        · right; exact h2

theorem aset_keys_nodup {κ : Type} [DecidableEq κ] {α : Type} (k : κ) (v : α) :
    ∀ (m : List (κ × α)), (m.map Prod.fst).Nodup → ((aset k v m).map Prod.fst).Nodup := by
  intro m
  induction m with
  | nil => intro _; simp [aset]
  | cons p rest ih =>
    intro hnd
    rw [List.map_cons, List.nodup_cons] at hnd
    unfold aset
    by_cases hk : k = p.1
    · rw [if_pos hk, List.map_cons, List.nodup_cons]
      refine ⟨?_, hnd.2⟩
      show k ∉ _
      rw [hk]
      exact hnd.1
    · rw [if_neg hk, List.map_cons, List.nodup_cons]
      constructor
      · intro hmem
        obtain ⟨q, hq, hqe⟩ := List.mem_map.mp hmem
        rcases mem_aset k v rest q hq with h2 | h2
        · exact hnd.1 (List.mem_map.mpr ⟨q, h2, hqe⟩)
        · rw [h2] at hqe
          exact hk hqe
      · exact ih hnd.2

theorem scanSegments_from_some (wp wv : Bool) (id : PointIdType) :
    ∀ (segs : List SegmentView),
      (∀ s ∈ segs, ∀ i, (∃ pl, s.payloadFn i = .ok pl) ∧ (∃ vec, s.vectorFn i = .ok vec)) →
      ∀ (st : RetrieveState) (v : SeqNumberType) (rec : Record),
        alookup id st = some (v, rec) →
        ∃ st', scanSegments wp wv id st segs = (none, st') ∧
          (∀ k, k ≠ id → alookup k st' = alookup k st) ∧
          ((st.map Prod.fst).Nodup → (st'.map Prod.fst).Nodup) ∧
          (((∀ s ∈ segs, s.contains id = true → s.version ≤ v) ∧ st' = st) ∨
            (∃ v' rec', alookup id st' = some (v', rec') ∧ rec'.id = id ∧ v < v' ∧
              FirstMaxFrom wp wv id segs v' rec')) := by
  intro segs
  induction segs with
  | nil =>
    intro hok st v rec hst
    exact ⟨st, rfl, fun _ _ => rfl, fun h => h, Or.inl ⟨by simp, rfl⟩⟩
  | cons s0 rest ih =>
    intro hok st v rec hst
    have hok0 := hok s0 (List.mem_cons_self _ _)
    have hokr := fun s hs => hok s (List.mem_cons_of_mem _ hs)
    by_cases hc : s0.contains id = true
    · by_cases hlt : v < s0.version
      · obtain ⟨r0, hb, hbid⟩ := buildRecord_ok wp wv id s0 (hok0 id).1 (hok0 id).2
        have hv : visitPoint wp wv id s0 st = .ok (aset id (s0.version, r0) st) := by
          unfold visitPoint
          rw [hst]
          simp [hlt, hb]
        have hsc : scanSegments wp wv id st (s0 :: rest) =
            scanSegments wp wv id (aset id (s0.version, r0) st) rest := by
          simp [scanSegments, hc, hv]
        rw [hsc]
        obtain ⟨st', hscan, hkeys, hnodup, hout⟩ :=
          ih hokr (aset id (s0.version, r0) st) s0.version r0 (alookup_aset_self _ _ _)
        refine ⟨st', hscan, ?_, ?_, ?_⟩
        · intro k hk
          rw [hkeys k hk, alookup_aset_ne _ _ _ _ hk]
        · intro hnd
          exact hnodup (aset_keys_nodup _ _ _ hnd)
        · rcases hout with ⟨hall, rfl⟩ | ⟨v', rec', hlk, hid', hvlt, hfm⟩
          · refine Or.inr ⟨s0.version, r0, alookup_aset_self _ _ _, hbid, hlt,
              [], s0, rest, rfl, hc, rfl, hb, ?_, ?_⟩
            · intro s' hs'
              simp at hs'
            · intro s' hs' hcs'
              rcases List.mem_cons.mp hs' with rfl | hmm
              · exact le_refl _
              · exact hall s' hmm hcs'
          · refine Or.inr ⟨v', rec', hlk, hid', lt_trans hlt hvlt, ?_⟩
            obtain ⟨pre1, s, suf, hdec, hcs, hver, hbd, hpre, hall⟩ := hfm
            refine ⟨s0 :: pre1, s, suf, by simp [hdec], hcs, hver, hbd, ?_, ?_⟩
            · intro s' hs' hcs'
              rcases List.mem_cons.mp hs' with rfl | hmm
              · exact hvlt
              · exact hpre s' hmm hcs'
            · intro s' hs' hcs'
              rcases List.mem_cons.mp hs' with rfl | hmm
              · exact le_of_lt hvlt
              · exact hall s' hmm hcs'
      · have hv : visitPoint wp wv id s0 st = .ok st := by
          unfold visitPoint
          rw [hst]
          simp [hlt]
        have hsc : scanSegments wp wv id st (s0 :: rest) =
            scanSegments wp wv id st rest := by
          simp [scanSegments, hc, hv]
        rw [hsc]
        obtain ⟨st', hscan, hkeys, hnodup, hout⟩ := ih hokr st v rec hst
        refine ⟨st', hscan, hkeys, hnodup, ?_⟩
        rcases hout with ⟨hall, rfl⟩ | ⟨v', rec', hlk, hid', hvlt, hfm⟩
        · refine Or.inl ⟨?_, rfl⟩
          intro s' hs' hcs'
          rcases List.mem_cons.mp hs' with rfl | hmm
          · exact not_lt.mp hlt
          · exact hall s' hmm hcs'
        · refine Or.inr ⟨v', rec', hlk, hid', hvlt, ?_⟩
          obtain ⟨pre1, s, suf, hdec, hcs, hver, hbd, hpre, hall⟩ := hfm
          refine ⟨s0 :: pre1, s, suf, by simp [hdec], hcs, hver, hbd, ?_, ?_⟩
          · intro s' hs' hcs'
            rcases List.mem_cons.mp hs' with rfl | hmm
            · exact lt_of_le_of_lt (not_lt.mp hlt) hvlt
            · exact hpre s' hmm hcs'
          · intro s' hs' hcs'
            rcases List.mem_cons.mp hs' with rfl | hmm
            · exact le_of_lt (lt_of_le_of_lt (not_lt.mp hlt) hvlt)
            · exact hall s' hmm hcs'
    · have hcf : s0.contains id = false := by simpa using hc
      have hsc : scanSegments wp wv id st (s0 :: rest) =
          scanSegments wp wv id st rest := by
        simp [scanSegments, hcf]
      rw [hsc]
      obtain ⟨st', hscan, hkeys, hnodup, hout⟩ := ih hokr st v rec hst
      refine ⟨st', hscan, hkeys, hnodup, ?_⟩
      rcases hout with ⟨hall, rfl⟩ | ⟨v', rec', hlk, hid', hvlt, hfm⟩
      · refine Or.inl ⟨?_, rfl⟩
        intro s' hs' hcs'
        rcases List.mem_cons.mp hs' with rfl | hmm
        · rw [hcf] at hcs'; cases hcs'
        · exact hall s' hmm hcs'
      · refine Or.inr ⟨v', rec', hlk, hid', hvlt, ?_⟩
        obtain ⟨pre1, s, suf, hdec, hcs, hver, hbd, hpre, hall⟩ := hfm
        refine ⟨s0 :: pre1, s, suf, by simp [hdec], hcs, hver, hbd, ?_, ?_⟩
        · intro s' hs' hcs'
          rcases List.mem_cons.mp hs' with rfl | hmm
          · rw [hcf] at hcs'; cases hcs'
          · exact hpre s' hmm hcs'
        · intro s' hs' hcs'
          rcases List.mem_cons.mp hs' with rfl | hmm
          · rw [hcf] at hcs'; cases hcs'
          · exact hall s' hmm hcs'

theorem scanSegments_from_none (wp wv : Bool) (id : PointIdType) :
    ∀ (segs : List SegmentView),
      (∀ s ∈ segs, ∀ i, (∃ pl, s.payloadFn i = .ok pl) ∧ (∃ vec, s.vectorFn i = .ok vec)) →
      ∀ (st : RetrieveState), alookup id st = none →
        ∃ st', scanSegments wp wv id st segs = (none, st') ∧
          (∀ k, k ≠ id → alookup k st' = alookup k st) ∧
          ((st.map Prod.fst).Nodup → (st'.map Prod.fst).Nodup) ∧
          (((∀ s ∈ segs, s.contains id = false) ∧ st' = st) ∨
            (∃ v' rec', alookup id st' = some (v', rec') ∧ rec'.id = id ∧
              FirstMaxFrom wp wv id segs v' rec')) := by
  intro segs
  induction segs with
  | nil =>
    intro hok st hst
    exact ⟨st, rfl, fun _ _ => rfl, fun h => h, Or.inl ⟨by simp, rfl⟩⟩
  | cons s0 rest ih =>
    intro hok st hst
    have hok0 := hok s0 (List.mem_cons_self _ _)
    have hokr := fun s hs => hok s (List.mem_cons_of_mem _ hs)
    by_cases hc : s0.contains id = true
    · obtain ⟨r0, hb, hbid⟩ := buildRecord_ok wp wv id s0 (hok0 id).1 (hok0 id).2
      have hv : visitPoint wp wv id s0 st = .ok (aset id (s0.version, r0) st) := by
        unfold visitPoint
        rw [hst]
        simp [hb]
      have hsc : scanSegments wp wv id st (s0 :: rest) =
          scanSegments wp wv id (aset id (s0.version, r0) st) rest := by
        simp [scanSegments, hc, hv]
      rw [hsc]
      obtain ⟨st', hscan, hkeys, hnodup, hout⟩ :=
        scanSegments_from_some wp wv id rest hokr (aset id (s0.version, r0) st)
          s0.version r0 (alookup_aset_self _ _ _)
      refine ⟨st', hscan, ?_, ?_, ?_⟩
      · intro k hk
        rw [hkeys k hk, alookup_aset_ne _ _ _ _ hk]
      · intro hnd
        exact hnodup (aset_keys_nodup _ _ _ hnd)
      · rcases hout with ⟨hall, rfl⟩ | ⟨v', rec', hlk, hid', hvlt, hfm⟩
        · refine Or.inr ⟨s0.version, r0, alookup_aset_self _ _ _, hbid,
            [], s0, rest, rfl, hc, rfl, hb, ?_, ?_⟩
          · intro s' hs'
            simp at hs'
          · intro s' hs' hcs'
            rcases List.mem_cons.mp hs' with rfl | hmm
            · exact le_refl _
            · exact hall s' hmm hcs'
        · refine Or.inr ⟨v', rec', hlk, hid', ?_⟩
          obtain ⟨pre1, s, suf, hdec, hcs, hver, hbd, hpre, hall⟩ := hfm
          refine ⟨s0 :: pre1, s, suf, by simp [hdec], hcs, hver, hbd, ?_, ?_⟩
          · intro s' hs' hcs'
            rcases List.mem_cons.mp hs' with rfl | hmm
            · exact hvlt
            · exact hpre s' hmm hcs'
          · intro s' hs' hcs'
            rcases List.mem_cons.mp hs' with rfl | hmm
            · exact le_of_lt hvlt
            · exact hall s' hmm hcs'
    · have hcf : s0.contains id = false := by simpa using hc
      have hsc : scanSegments wp wv id st (s0 :: rest) =
          scanSegments wp wv id st rest := by
        simp [scanSegments, hcf]
      rw [hsc]
      obtain ⟨st', hscan, hkeys, hnodup, hout⟩ := ih hokr st hst
      refine ⟨st', hscan, hkeys, hnodup, ?_⟩
      rcases hout with ⟨hall, rfl⟩ | ⟨v', rec', hlk, hid', hfm⟩
      · refine Or.inl ⟨?_, rfl⟩
        intro s' hs'
        rcases List.mem_cons.mp hs' with rfl | hmm
        · exact hcf
        · exact hall s' hmm
      · refine Or.inr ⟨v', rec', hlk, hid', ?_⟩
        obtain ⟨pre1, s, suf, hdec, hcs, hver, hbd, hpre, hall⟩ := hfm
        refine ⟨s0 :: pre1, s, suf, by simp [hdec], hcs, hver, hbd, ?_, ?_⟩
        · intro s' hs' hcs'
          rcases List.mem_cons.mp hs' with rfl | hmm
          · rw [hcf] at hcs'; cases hcs'
          · exact hpre s' hmm hcs'
        · intro s' hs' hcs'
          rcases List.mem_cons.mp hs' with rfl | hmm
          · rw [hcf] at hcs'; cases hcs'
          · exact hall s' hmm hcs'

theorem scanPoints_cons_ok (wp wv : Bool) (id : PointIdType) (rest : List PointIdType)
    (holder : List SegmentView) (st st1 : RetrieveState)
    (h : scanSegments wp wv id st holder = (none, st1)) :
    scanPoints wp wv (id :: rest) holder st = scanPoints wp wv rest holder st1 := by
  simp only [scanPoints, h]

theorem scanPoints_inv (wp wv : Bool) (holder : List SegmentView)
    (hok : ∀ s ∈ holder, ∀ i, (∃ pl, s.payloadFn i = .ok pl) ∧ (∃ vec, s.vectorFn i = .ok vec)) :
    ∀ (points : List PointIdType) (st : RetrieveState),
      (st.map Prod.fst).Nodup →
      (∀ k v rec, alookup k st = some (v, rec) → rec.id = k ∧ FirstMaxFrom wp wv k holder v rec) →
      ∃ st', scanPoints wp wv points holder st = (none, st') ∧
        (st'.map Prod.fst).Nodup ∧
        (∀ k v rec, alookup k st' = some (v, rec) → rec.id = k ∧ FirstMaxFrom wp wv k holder v rec) ∧
        (∀ k e, alookup k st = some e → ∃ e', alookup k st' = some e') ∧
        (∀ k, k ∈ points → (∃ s ∈ holder, s.contains k = true) → ∃ e', alookup k st' = some e') ∧
        (∀ k e, alookup k st' = some e → (∃ e', alookup k st = some e') ∨ k ∈ points) := by
  intro points
  induction points with
  | nil =>
    intro st hnd hinv
    refine ⟨st, rfl, hnd, hinv, fun k e h => ⟨e, h⟩, ?_, fun k e h => Or.inl ⟨e, h⟩⟩
    intro k hk
    simp at hk
  | cons id rest ih =>
    intro st hnd hinv
    cases hlk : alookup id st with
    | some pr =>
      obtain ⟨v, rec⟩ := pr
      obtain ⟨st1, hscan1, hkeys1, hnd1f, hout1⟩ :=
        scanSegments_from_some wp wv id holder hok st v rec hlk
      have hnd1 : (st1.map Prod.fst).Nodup := hnd1f hnd
      have hid1 : ∃ e, alookup id st1 = some e := by
        rcases hout1 with ⟨_, rfl⟩ | ⟨v', rec', h, _⟩
        · exact ⟨(v, rec), hlk⟩
        · exact ⟨(v', rec'), h⟩
      have hinv1 : ∀ k v0 rec0, alookup k st1 = some (v0, rec0) →
          rec0.id = k ∧ FirstMaxFrom wp wv k holder v0 rec0 := by
        intro k v0 rec0 hk
        by_cases hke : k = id
        · subst hke
          rcases hout1 with ⟨_, rfl⟩ | ⟨v', rec', h, hid', hvlt, hfm⟩
          · exact hinv k v0 rec0 hk
          · rw [hk] at h
            simp at h
            obtain ⟨hveq, hreq⟩ := h
            subst hveq
            subst hreq
            exact ⟨hid', hfm⟩
        · rw [hkeys1 k hke] at hk
          exact hinv k v0 rec0 hk
      obtain ⟨st', hscan, hnd', hinv', hmono, hD1, hD2⟩ := ih st1 hnd1 hinv1
      have hmono1 : ∀ k e, alookup k st = some e → ∃ e', alookup k st1 = some e' := by
        intro k e hke
        by_cases hkid : k = id
        · subst hkid
          exact hid1
        · exact ⟨e, by rw [hkeys1 k hkid]; exact hke⟩
      refine ⟨st', ?_, hnd', hinv', ?_, ?_, ?_⟩
      · rw [scanPoints_cons_ok wp wv id rest holder st st1 hscan1]
        exact hscan
      · intro k e hke
        obtain ⟨e1, he1⟩ := hmono1 k e hke
        exact hmono k e1 he1
      · intro k hk hc
        rcases List.mem_cons.mp hk with rfl | hkrest
        · obtain ⟨e1, he1⟩ := hid1
          exact hmono k e1 he1
        · exact hD1 k hkrest hc
      · intro k e hke
        rcases hD2 k e hke with ⟨e1, he1⟩ | hkrest
        · by_cases hkid : k = id
          · exact Or.inr (by rw [hkid]; exact List.mem_cons_self _ _)
          · rw [hkeys1 k hkid] at he1
            exact Or.inl ⟨e1, he1⟩
        · exact Or.inr (List.mem_cons_of_mem _ hkrest)
    | none =>
      obtain ⟨st1, hscan1, hkeys1, hnd1f, hout1⟩ :=
        scanSegments_from_none wp wv id holder hok st hlk
      have hnd1 : (st1.map Prod.fst).Nodup := hnd1f hnd
      have hinv1 : ∀ k v0 rec0, alookup k st1 = some (v0, rec0) →
          rec0.id = k ∧ FirstMaxFrom wp wv k holder v0 rec0 := by
        intro k v0 rec0 hk
        by_cases hke : k = id
        · subst hke
          rcases hout1 with ⟨hall, rfl⟩ | ⟨v', rec', h, hid', hfm⟩
          · exact hinv k v0 rec0 hk
          · rw [hk] at h
            simp at h
            obtain ⟨hveq, hreq⟩ := h
            subst hveq
            subst hreq
            exact ⟨hid', hfm⟩
        · rw [hkeys1 k hke] at hk
          exact hinv k v0 rec0 hk
      obtain ⟨st', hscan, hnd', hinv', hmono, hD1, hD2⟩ := ih st1 hnd1 hinv1
      refine ⟨st', ?_, hnd', hinv', ?_, ?_, ?_⟩
      · rw [scanPoints_cons_ok wp wv id rest holder st st1 hscan1]
        exact hscan
      · intro k e hke
        by_cases hkid : k = id
        · subst hkid
          rw [hlk] at hke
          cases hke
        · exact hmono k e (by rw [hkeys1 k hkid]; exact hke)
      · intro k hk hc
        rcases List.mem_cons.mp hk with rfl | hkrest
        · rcases hout1 with ⟨hall, rfl⟩ | ⟨v', rec', h, hid', hfm⟩
          · obtain ⟨s, hs, hcs⟩ := hc
            rw [hall s hs] at hcs
            cases hcs
          · exact hmono k (v', rec') h
        · exact hD1 k hkrest hc
      · intro k e hke
        rcases hD2 k e hke with ⟨e1, he1⟩ | hkrest
        · by_cases hkid : k = id
          · exact Or.inr (by rw [hkid]; exact List.mem_cons_self _ _)
          · rw [hkeys1 k hkid] at he1
            exact Or.inl ⟨e1, he1⟩
        · exact Or.inr (List.mem_cons_of_mem _ hkrest)

/-- C2: for every `retrieve(ids, with_payload, with_vector)` call (under
segment calls that succeed), every id contained in at least one segment is
returned exactly once, and its `Record` is the one built from the first
segment attaining the maximum `version()` among the segments containing it
(an accumulated record is replaced only on a strictly greater version); ids
contained in no segment are omitted from the output and cause no error. -/
theorem retrieve_version_reconciled (wp wv : Bool) (points : List PointIdType)
    (holder : List SegmentView)
    (hok : ∀ s ∈ holder, ∀ i, (∃ pl, s.payloadFn i = .ok pl) ∧ (∃ vec, s.vectorFn i = .ok vec)) :
    (scanPoints wp wv points holder []).1 = none ∧
    (∀ id ∈ points, (∃ s ∈ holder, s.contains id = true) →
      ∃ rec ∈ SimpleSegmentSearcher.retrieve points wp wv holder,
        rec.id = id ∧ ∃ v, FirstMaxFrom wp wv id holder v rec) ∧
    (∀ rec ∈ SimpleSegmentSearcher.retrieve points wp wv holder,
      rec.id ∈ points ∧ ∃ s ∈ holder, s.contains rec.id = true) ∧
    ((SimpleSegmentSearcher.retrieve points wp wv holder).map Record.id).Nodup := by
  obtain ⟨st', hscan, hnd', hinv', hmono, hD1, hD2⟩ :=
    scanPoints_inv wp wv holder hok points [] (by simp)
      (by intro k v rec h; simp [alookup] at h)
  have hres : SimpleSegmentSearcher.retrieve points wp wv holder =
      st'.map (fun e => e.2.2) := by
    unfold SimpleSegmentSearcher.retrieve
    rw [hscan]
  have hids : ∀ e ∈ st', (e.2.2).id = e.1 := by
    intro e he
    obtain ⟨k, v, rec⟩ := e
    exact (hinv' k v rec (mem_alookup_of_nodup k (v, rec) st' hnd' he)).1
  refine ⟨?_, ?_, ?_, ?_⟩
  · rw [hscan]
  · intro id hid hc
    obtain ⟨e, he⟩ := hD1 id hid hc
    obtain ⟨v, rec⟩ := e
    obtain ⟨hrid, hfm⟩ := hinv' id v rec he
    refine ⟨rec, ?_, hrid, v, hfm⟩
    rw [hres]
    exact List.mem_map.mpr ⟨(id, v, rec), alookup_mem id (v, rec) st' he, rfl⟩
  · intro rec hrec
    rw [hres] at hrec
    obtain ⟨e, he, heq⟩ := List.mem_map.mp hrec
    obtain ⟨k, v, r⟩ := e
    have heq' : r = rec := heq
    subst heq'
    have hlk : alookup k st' = some (v, r) := mem_alookup_of_nodup k (v, r) st' hnd' he
    obtain ⟨hrid, hfm⟩ := hinv' k v r hlk
    have hkpts : k ∈ points := by
      rcases hD2 k (v, r) hlk with ⟨e', he'⟩ | h
      · simp [alookup] at he'
      · exact h
    obtain ⟨pre, s, suf, hdec, hcs, _, _, _, _⟩ := hfm
    constructor
    · rw [hrid]
      exact hkpts
    · refine ⟨s, ?_, ?_⟩
      · rw [hdec]
        exact List.mem_append_right _ (List.mem_cons_self _ _)
      · rw [hrid]
        exact hcs
  · rw [hres, List.map_map]
    have hmapeq : st'.map (Record.id ∘ fun e => e.2.2) = st'.map Prod.fst :=
      List.map_congr_left hids
    rw [hmapeq]
    exact hnd'

/-- Witness for C2 at a concrete input: two segments both holding point 3
(versions 1 and 2), point 99 held by neither; the scan reports no error, 3 is
returned with the maximal-version record, 99 is omitted, and ids are unique. -/
theorem retrieve_version_reconciled_witness :
    (scanPoints true true [3, 99] [viewA, viewB] []).1 = none ∧
    (∀ id ∈ [3, 99], (∃ s ∈ [viewA, viewB], s.contains id = true) →
      ∃ rec ∈ SimpleSegmentSearcher.retrieve [3, 99] true true [viewA, viewB],
        rec.id = id ∧ ∃ v, FirstMaxFrom true true id [viewA, viewB] v rec) ∧
    (∀ rec ∈ SimpleSegmentSearcher.retrieve [3, 99] true true [viewA, viewB],
      rec.id ∈ [3, 99] ∧ ∃ s ∈ [viewA, viewB], s.contains rec.id = true) ∧
    ((SimpleSegmentSearcher.retrieve [3, 99] true true [viewA, viewB]).map Record.id).Nodup :=
  retrieve_version_reconciled true true [3, 99] [viewA, viewB] (by
    intro s hs i
    rcases List.mem_cons.mp hs with rfl | hs
    · exact ⟨⟨[("k", "v")], rfl⟩, ⟨[5], rfl⟩⟩
    rcases List.mem_cons.mp hs with rfl | hs
    · exact ⟨⟨[("b", "w")], rfl⟩, ⟨[6], rfl⟩⟩
    · simp at hs)

theorem tryJoinAll_error_of_mem {α : Type} :
    ∀ (xs : List (Except String α)), (∃ x ∈ xs, ∃ e0, x = Except.error e0) →
      ∃ e, tryJoinAll xs = .error e := by
  intro xs
  induction xs with
  | nil =>
    intro h
    obtain ⟨x, hx, _⟩ := h
    simp at hx
  | cons x0 rest ih =>
    intro h
    obtain ⟨x, hx, e0, hxe⟩ := h
    rcases List.mem_cons.mp hx with rfl | hmem
    · exact ⟨e0, by simp [tryJoinAll, hxe]⟩
    · cases x0 with
      | error e1 => exact ⟨e1, by simp [tryJoinAll]⟩
      | ok v =>
        obtain ⟨e', he'⟩ := ih ⟨x, hmem, e0, hxe⟩
        exact ⟨e', by simp [tryJoinAll, he']⟩

/-- C6 (amended): a failing per-segment task does abort the whole `search`,
but the join error is consumed by `.unwrap()` (modelled `none`): the caller
gets a panic, not the error, and no partial result. In `retrieve`, a failing
segment call stops the scan but the `read_points` error is discarded (`;`):
the records accumulated before the failure are returned as a partial result
and no error is surfaced. -/
theorem search_abort_retrieve_salvage :
    (∀ (segments : List SegmentView) (vector : VectorType) (top : Nat) (d : Distance),
      (∃ s ∈ segments, s.lockOk = false) →
      SimpleSegmentSearcher.search segments vector top d = none) ∧
    (∀ (wp wv : Bool) (points : List PointIdType) (holder : List SegmentView)
      (e : String) (st' : RetrieveState),
      scanPoints wp wv points holder [] = (some e, st') →
      SimpleSegmentSearcher.retrieve points wp wv holder = st'.map (fun x => x.2.2)) := by
  constructor
  · intro segments vector top d h
    obtain ⟨s, hs, hlock⟩ := h
    have hmem : search_in_segment s vector top ∈
        segments.map (fun s => search_in_segment s vector top) :=
      List.mem_map_of_mem _ hs
    have herr : search_in_segment s vector top = .error "Unable to unlock segment" := by
      unfold search_in_segment
      rw [hlock]
      rfl
    obtain ⟨e, he⟩ := tryJoinAll_error_of_mem _ ⟨_, hmem, _, herr⟩
    unfold SimpleSegmentSearcher.search
    rw [he]
  · intro wp wv points holder e st' h
    unfold SimpleSegmentSearcher.retrieve
    rw [h]

/-- Witness for C6 (amended): a holder with a poisoned lock makes the whole
search abort with no partial result; a holder whose second segment fails on
payload access makes retrieve return the one record accumulated first. -/
theorem search_abort_retrieve_salvage_witness :
    SimpleSegmentSearcher.search [viewA, lockBad] [1] 5 Distance.Dot = none ∧
    SimpleSegmentSearcher.retrieve [3, 2] true true [viewA, vBad] =
      ([(3, (1, { id := 3, payload := some [("k", "v")], vector := some [5] }))] :
        RetrieveState).map (fun x => x.2.2) :=
  ⟨search_abort_retrieve_salvage.1 [viewA, lockBad] [1] 5 Distance.Dot
      ⟨lockBad, by simp, rfl⟩,
    search_abort_retrieve_salvage.2 true true [3, 2] [viewA, vBad] "boom"
      [(3, (1, { id := 3, payload := some [("k", "v")], vector := some [5] }))] rfl⟩

/-- Counterexample to C6 as stated: on `[viewA, vBad]` the scan fails with
"boom" on point 2, yet `retrieve` surfaces no error and returns a non-empty
partial result (the record for point 3). -/
theorem retrieve_discards_error_counterexample :
    (scanPoints true true [3, 2] [viewA, vBad] []).1 = some "boom" ∧
    SimpleSegmentSearcher.retrieve [3, 2] true true [viewA, vBad] =
      [{ id := 3, payload := some [("k", "v")], vector := some [5] }] :=
  ⟨rfl, rfl⟩
